import Mathlib


/-!
Verification of the data-transformation component of the Apache_Airflow_ETL
repository (`networksecurity/components/data_transformation.py`), shallowly
embedded in Lean 4.

Modelling notes.

* A pandas `DataFrame` is a list of named, typed columns (`Col`), each holding
  a list of cells.  The frames reaching `DataTransformation.run` come from
  `pd.read_csv` without `parse_dates`, so every column dtype is one of
  int/float (`Dtype.numeric`), `bool`, or `object`; `category` is included
  because `_build_transformer` mentions it in `select_dtypes`.  `pd.read_csv`
  mangles duplicate headers, so column names are assumed distinct where stated.
* A missing entry (NaN) is `Cell.na`; finite numeric entries are rationals.
* Fitted sklearn estimator state is a deterministic function of the training
  data it was fitted on.  For the numeric sub-pipelines (KNN/mean imputation,
  Yeo-Johnson power transform, standard scaling) the output values are real
  numbers that are not rational functions of the input, so the model keeps the
  fitted state as the training column itself and represents an output value
  symbolically (`OutCell.real`): a deterministic, total function of the fitted
  training column and the imputed input value.  No claim below depends on the
  concrete real value.  The categorical sub-pipeline (most-frequent imputation
  followed by one-hot encoding with `handle_unknown="ignore"`) is modelled
  exactly.
* `SimpleImputer` and `KNNImputer` silently discard a feature whose training
  column is entirely missing (sklearn `keep_empty_features=False` default,
  and the only behaviour in the versions admitting `OneHotEncoder(sparse=...)`);
  the model reproduces this in `fitNumColState` / `fitCatColState`.  When a
  sub-pipeline loses *every* feature this way, the estimator following the
  imputer rejects the resulting 0-feature array at fit time, so
  `FittedTransformer.fit` fails there instead of producing a transformer.
-/

namespace ETL

/-- Column dtypes relevant to the dtype dispatch in `_build_transformer`
(`select_dtypes(include=["object", "category"])` versus
`select_dtypes(include=["number", "bool"])`). -/
inductive Dtype where
  | numeric
  | bool
  | object
  | category
deriving DecidableEq, Inhabited

/-- `True` exactly for the dtypes matched by `select_dtypes(include=["number", "bool"])`;
also the value of `pd.api.types.is_numeric_dtype` on these dtypes. -/
def Dtype.isNumLike : Dtype → Bool
  | .numeric => true
  | .bool => true
  | _ => false

/-- `True` exactly for the dtypes matched by `select_dtypes(include=["object", "category"])`. -/
def Dtype.isObjLike : Dtype → Bool
  | .object => true
  | .category => true
  | _ => false

/-- One entry of a column: missing (NaN), a finite number, or a string. -/
inductive Cell where
  | na
  | num (q : ℚ)
  | str (s : String)
deriving DecidableEq, Inhabited

/-- A named, typed pandas column. -/
structure Col where
  name : String
  dtype : Dtype
  values : List Cell
deriving DecidableEq, Inhabited

/-- A DataFrame: a list of columns. -/
abbrev Frame := List Col

/-- Structural decidable equality for `Except`, so that runs of the model on
concrete frames can be evaluated by `decide`. -/
def exceptDecEq {ε α : Type} [DecidableEq ε] [DecidableEq α] :
    (a b : Except ε α) → Decidable (a = b)
  | .error e, .error e' =>
    if h : e = e' then .isTrue (by rw [h]) else .isFalse (fun hh => h (by cases hh; rfl))
  | .error _, .ok _ => .isFalse (fun h => Except.noConfusion h)
  | .ok _, .error _ => .isFalse (fun h => Except.noConfusion h)
  | .ok a, .ok a' =>
    if h : a = a' then .isTrue (by rw [h]) else .isFalse (fun hh => h (by cases hh; rfl))

instance {ε α : Type} [DecidableEq ε] [DecidableEq α] : DecidableEq (Except ε α) :=
  exceptDecEq

/-- dtype/value consistency of a single column: numeric-dtyped (or bool)
columns hold no strings, object/category columns hold no raw numbers. -/
def Col.consistent (c : Col) : Bool :=
  if c.dtype.isNumLike then
    c.values.all (fun x => match x with | .str _ => false | _ => true)
  else
    c.values.all (fun x => match x with | .num _ => false | _ => true)

/-- `X[n]` / `n in X.columns`: first column named `n`. -/
def Frame.col? (X : Frame) (n : String) : Option Col :=
  X.find? (fun c => decide (c.name = n))

/-- `X.drop(columns=[n])`. -/
def Frame.dropCol (X : Frame) (n : String) : Frame :=
  X.filter (fun c => decide (c.name ≠ n))

/-- `X.select_dtypes(include=["object", "category"]).columns.tolist()`. -/
def selectObjCols (X : Frame) : List String :=
  (X.filter (fun c => c.dtype.isObjLike)).map Col.name

/-- `X.select_dtypes(include=["number", "bool"]).columns.tolist()`. -/
def selectNumCols (X : Frame) : List String :=
  (X.filter (fun c => c.dtype.isNumLike)).map Col.name

/-- Non-missing numeric entries of a column, in order (`Series.dropna()`). -/
def dropna (cs : List Cell) : List ℚ :=
  cs.filterMap (fun x => match x with | .num q => some q | _ => none)

/-- String entries of a column, in order. -/
def strVals (cs : List Cell) : List String :=
  cs.filterMap (fun x => match x with | .str s => some s | _ => none)

def qsum (l : List ℚ) : ℚ := l.foldr (· + ·) 0

/-- Mean of a list of rationals (`0` on the empty list, which the code never
consults: all-missing columns are handled separately). -/
def qmean (xs : List ℚ) : ℚ := qsum xs / (xs.length : ℚ)

/-- `Σ (x - mean)^k`, the central power sum used by `pandas.Series.skew`. -/
def centralSum (k : ℕ) (xs : List ℚ) : ℚ :=
  qsum (xs.map (fun x => (x - qmean xs) ^ k))

/-- `abs(Series(xs).skew()) > 1.0`, decided exactly over ℚ.
`pandas` computes the bias-adjusted sample skewness
`G1 = (n·√(n−1)/(n−2)) · m3/m2^{3/2}` with `m2, m3` the central power sums,
returning NaN for `n < 3` and `0` when `m2 = 0` (both compare as `False`
against the threshold).  For `n ≥ 3` and `m2 > 0`,
`|G1| > 1 ↔ n²(n−1)·m3² > (n−2)²·m2³`, which is the rational test below. -/
def absSkewGtOne (xs : List ℚ) : Bool :=
  let n : ℚ := (xs.length : ℚ)
  let m2 := centralSum 2 xs
  let m3 := centralSum 3 xs
  if xs.length < 3 then false
  else if m2 = 0 then false
  else decide (n ^ 2 * (n - 1) * m3 ^ 2 > (n - 2) ^ 2 * m2 ^ 3)

/-- `np.isfinite(X[c]).any()`: some entry is a finite number (the model has no
infinities, so finite = non-missing numeric). -/
def colHasFinite (c : Col) : Bool := decide (dropna c.values ≠ [])

/-- The per-column skew test of `_build_transformer` line 47:
`np.isfinite(X[c]).any() and abs(pd.Series(X[c]).dropna().skew()) > skew_threshold`. -/
def colIsSkewed (X : Frame) (n : String) : Bool :=
  match X.col? n with
  | some c => colHasFinite c && absSkewGtOne (dropna c.values)
  | none => false

/-- `skewed = [c for c in num_cols if np.isfinite(X[c]).any() and abs(...skew()) > 1.0]`. -/
def skewedCols (X : Frame) : List String :=
  (selectNumCols X).filter (colIsSkewed X)

/-- `regular = [c for c in num_cols if c not in skewed]`. -/
def regularCols (X : Frame) : List String :=
  (selectNumCols X).filter (fun c => !(skewedCols X).contains c)

/-- The three column groups of the builder, tagging the sub-pipeline applied
to each: `num_skewed` (mean-impute → Yeo-Johnson → scale), `num_regular`
(KNN-impute → scale), `cat` (most-frequent-impute → one-hot). -/
inductive GroupTag where
  | numSkewed
  | numRegular
  | cat
deriving DecidableEq, Inhabited

/-- The `ColumnTransformer(transformers, remainder="drop", sparse_threshold=1.0)`
built by `_build_transformer`: the ordered `(group, column list)` assignment.
The drop policy and the sub-pipeline contents are modelled in fit/transform. -/
structure ColumnTransformerSpec where
  transformers : List (GroupTag × List String)
deriving DecidableEq, Inhabited

/-- The abstract error taxonomy of the component (the source wraps each of
these into `NetworkSecurityException`; the spec names them individually). -/
inductive TError where
  | noFeatureColumns
  | missingTargetColumn
  | unseenLabel
  | labelTypeError
  | missingColumn (n : String)
  | transformFitError
deriving DecidableEq, Inhabited

/-- `_build_transformer` (lines 41–84): profile the columns of the training
feature frame and assemble the `ColumnTransformer` spec; error when no group
is non-empty. -/
def builderGroups (X : Frame) : List (GroupTag × List String) :=
  (if (skewedCols X).isEmpty then [] else [(GroupTag.numSkewed, skewedCols X)]) ++
  (if (regularCols X).isEmpty then [] else [(GroupTag.numRegular, regularCols X)]) ++
  (if (selectObjCols X).isEmpty then [] else [(GroupTag.cat, selectObjCols X)])

def buildTransformer (X : Frame) : Except TError ColumnTransformerSpec :=
  if (builderGroups X).isEmpty then .error .noFeatureColumns else .ok ⟨builderGroups X⟩

/-! ### Sorting and mode helpers (np.unique order, SimpleImputer most_frequent) -/

/-- Unicode code points of a string, for lexicographic comparison. -/
def strKey (s : String) : List ℕ := s.data.map Char.toNat

/-- Lexicographic `≤` on code-point lists. -/
def keyLe : List ℕ → List ℕ → Bool
  | [], _ => true
  | _ :: _, [] => false
  | a :: as, b :: bs => if a < b then true else if a = b then keyLe as bs else false

/-- Lexicographic string order, the order used by `np.unique` on string arrays. -/
def strLe (a b : String) : Bool := keyLe (strKey a) (strKey b)

/-- Insert into a `strLe`-sorted list (structural recursion, so that runs on
concrete frames reduce inside the kernel). -/
def insertSorted (a : String) : List String → List String
  | [] => [a]
  | t :: ts => if strLe a t then a :: t :: ts else t :: insertSorted a ts

/-- Insertion sort by `strLe`. -/
def sortStr (l : List String) : List String := l.foldr insertSorted []

/-- `np.unique` on a string array: distinct values in ascending lexicographic
order.  This is both the `OneHotEncoder` category order and the
`LabelEncoder` class order. -/
def sortedUnique (l : List String) : List String :=
  sortStr l.dedup

/-- Number of occurrences of `s` in `l`. -/
def countOf (l : List String) (s : String) : ℕ :=
  (l.filter (fun x => decide (x = s))).length

/-- `SimpleImputer(strategy="most_frequent")` fit statistic: the most frequent
non-missing value, ties broken towards the lexicographically smallest
(`none` when every entry is missing, in which case the imputer discards the
feature). -/
def modeOf (l : List String) : Option String :=
  (sortedUnique l).foldl
    (fun acc s =>
      match acc with
      | none => some s
      | some b => if countOf l b < countOf l s then some s else acc)
    none

/-! ### Fitted state -/

/-- Fitted per-column state of the composite transformation.
For a numeric column every fitted statistic (imputation fill, Yeo-Johnson
λ, scaler mean/scale) is a deterministic function of the training column, so
the training column itself is kept as the fitted state.  For a categorical
column the fitted state is the imputation mode and the one-hot category
vocabulary (sorted distinct imputed training values). -/
inductive FittedColState where
  | num (name : String) (trainVals : List Cell)
  | catg (name : String) (mode : String) (categories : List String)
deriving DecidableEq, Inhabited

/-- The name of the input column a fitted state consumes. -/
def FittedColState.colName : FittedColState → String
  | .num n _ => n
  | .catg n _ _ => n

/-- Number of output columns the state produces (1 for numeric, one per
fitted category for categorical). -/
def FittedColState.width : FittedColState → ℕ
  | .num _ _ => 1
  | .catg _ _ cats => cats.length

/-- `True` exactly on numeric-pipeline states. -/
def FittedColState.isNum : FittedColState → Bool
  | .num _ _ => true
  | .catg _ _ _ => false

/-- One-hot contribution of a state to the output width (0 for numeric
states). -/
def FittedColState.catWidth : FittedColState → ℕ
  | .num _ _ => 0
  | .catg _ _ cats => cats.length

/-- Fitting a numeric sub-pipeline on one training column.  Both
`SimpleImputer(strategy="mean")` and `KNNImputer` discard a feature that is
entirely missing at fit time; otherwise the fitted state is determined by the
training column. -/
def fitNumColState (c : Col) : Option FittedColState :=
  if dropna c.values = [] then none else some (.num c.name c.values)

/-- `SimpleImputer(strategy="most_frequent")` imputation of one cell. -/
def imputeMostFrequent (m : String) (x : Cell) : Cell :=
  match x with
  | .na => .str m
  | other => other

/-- Fitting the categorical sub-pipeline on one training column: most-frequent
imputation statistic, then `OneHotEncoder` categories from the imputed
column (an entirely-missing column is discarded by the imputer). -/
def fitCatColState (c : Col) : Option FittedColState :=
  match modeOf (strVals c.values) with
  | none => none
  | some m =>
    some (.catg c.name m (sortedUnique (strVals (c.values.map (imputeMostFrequent m)))))

/-- Fit one `(group, columns)` entry of the `ColumnTransformer` on the
training frame. -/
def fitGroup (X : Frame) (g : GroupTag × List String) : GroupTag × List FittedColState :=
  (g.1, g.2.filterMap (fun n =>
    (X.col? n).bind (fun c =>
      match g.1 with
      | .cat => fitCatColState c
      | _ => fitNumColState c)))

/-- `preprocessor.fit(X_train)`: the fitted composite transformation. -/
structure FittedTransformer where
  entries : List (GroupTag × List FittedColState)
deriving DecidableEq, Inhabited

/-- The per-group fitted state lists of `ColumnTransformer.fit`. -/
def fitEntries (spec : ColumnTransformerSpec) (X : Frame) :
    List (GroupTag × List FittedColState) :=
  spec.transformers.map (fitGroup X)

/-- `preprocessor.fit(X_train)`.  Fitting fails when a sub-pipeline is left
with no feature at all: the imputer heading each pipeline discards features
that are entirely missing at fit time, and the following estimator
(`StandardScaler`, `PowerTransformer`, `OneHotEncoder`) rejects a 0-feature
array (`check_array` with `ensure_min_features=1` raises `ValueError`), so a
group whose every column was discarded aborts the fit — the spec's
`TransformFitError`. -/
def FittedTransformer.fit (spec : ColumnTransformerSpec) (X : Frame) :
    Except TError FittedTransformer :=
  if (fitEntries spec X).any (fun e => e.2.isEmpty) then .error .transformFitError
  else .ok ⟨fitEntries spec X⟩

/-- All fitted column states, in output order, with their group tags. -/
def FittedTransformer.states (t : FittedTransformer) : List (GroupTag × FittedColState) :=
  t.entries.flatMap (fun e => e.2.map (fun st => (e.1, st)))

/-! ### Transform -/

/-- One output matrix entry.  `real tag trainVals x` stands for the real
number produced by the `tag` numeric sub-pipeline — fitted on training column
`trainVals` — on the imputed input value `x`; it is a total, deterministic
function of its arguments, which is all the claims need (the concrete value
is irrational in general).  One-hot indicator entries are exact rationals. -/
inductive OutCell where
  | na
  | q (x : ℚ)
  | real (tag : GroupTag) (trainVals : List Cell) (x : ℚ)
deriving DecidableEq, Inhabited

/-- Imputation fill value for a missing numeric entry.
For the skewed group this is exactly `SimpleImputer(strategy="mean")`'s fill,
the mean of the non-missing training values.  For the regular group —
Modelled from the spec: the `KNNImputer` parameters live in
`DATA_TRANSFORMATION_IMPUTER_PARAMS` (`networksecurity/constant/training_pipeline.py`,
not under src), and its neighbour selection is implementation-defined on
ties; the spec only fixes that the fill is a deterministic function of the
fitted training data, so the model uses the column mean, which is also
`KNNImputer`'s documented fallback when no donor neighbour exists. -/
def numFill (trainVals : List Cell) : ℚ := qmean (dropna trainVals)

/-- Numeric sub-pipeline applied to one cell: impute a missing entry from the
fitted training column, then feed the value through the (symbolic)
power-transform/scaling stages.  A string cell in a numeric column cannot
occur on dtype-consistent frames and yields `na`. -/
def transformNumCell (tag : GroupTag) (trainVals : List Cell) (x : Cell) : OutCell :=
  match x with
  | .na => .real tag trainVals (numFill trainVals)
  | .num q => .real tag trainVals q
  | .str _ => .na

/-- Categorical sub-pipeline applied to one cell for one fitted category
`cv`: most-frequent imputation, then the one-hot indicator.  With
`handle_unknown="ignore"` a value outside the fitted vocabulary simply scores
`0` against every category.  A raw numeric cell in an object column cannot
occur on dtype-consistent frames and yields `na`. -/
def oneHotCell (m cv : String) (x : Cell) : OutCell :=
  match imputeMostFrequent m x with
  | .str s => .q (if s = cv then 1 else 0)
  | _ => .na

/-- One block of the transformed output: the output columns produced from a
single input column (one column for numeric, one per fitted category for
categorical, mirroring `ColumnTransformer`'s `get_feature_names_out` blocks). -/
structure OutBlock where
  source : String
  tag : GroupTag
  categories : List String
  cols : List (List OutCell)
deriving DecidableEq, Inhabited

/-- Fail-fast effectful map over `Except`, the sequencing discipline of the
underlying library calls. -/
def exceptMapM (f : α → Except TError β) : List α → Except TError (List β)
  | [] => .ok []
  | a :: as =>
    match f a with
    | .error e => .error e
    | .ok b =>
      match exceptMapM f as with
      | .error e => .error e
      | .ok bs => .ok (b :: bs)

/-- Apply one fitted column state to the frame `Y` being transformed. -/
def transformState (Y : Frame) (p : GroupTag × FittedColState) : Except TError OutBlock :=
  match p.2 with
  | .num n tv =>
    match Y.col? n with
    | none => .error (.missingColumn n)
    | some c => .ok ⟨n, p.1, [], [c.values.map (transformNumCell p.1 tv)]⟩
  | .catg n m cats =>
    match Y.col? n with
    | none => .error (.missingColumn n)
    | some c => .ok ⟨n, p.1, cats, cats.map (fun cv => c.values.map (oneHotCell m cv))⟩

/-- `preprocessor_fitted.transform(Y)`: apply every fitted column state, in
output order, to the frame `Y`. -/
def FittedTransformer.transform (t : FittedTransformer) (Y : Frame) :
    Except TError (List OutBlock) :=
  exceptMapM (transformState Y) t.states

/-- Total number of output columns of a transformed result. -/
def outWidth (blocks : List OutBlock) : ℕ :=
  (blocks.map (fun b => b.cols.length)).sum

/-- Sum, over the fitted categorical column states, of the fitted one-hot
category counts. -/
def oneHotWidth (t : FittedTransformer) : ℕ :=
  (t.states.map (fun p => p.2.catWidth)).sum

/-! ### Label normalization and encoding (`run`, lines 97–122) -/

/-- `pd.api.types.is_numeric_dtype`: true for int/float and for `bool`. -/
def isNumericDtype (d : Dtype) : Bool := d.isNumLike

/-- `y.replace(-1, 0)` applied to one cell: the sentinel remap of the target
normalizer.  Missing entries and values other than `−1` are untouched. -/
def replaceNeg1 (x : Cell) : Cell :=
  match x with
  | .num q => if q = -1 then .num 0 else .num q
  | other => other

/-- `Series.nunique()`: number of distinct non-missing values. -/
def seriesNunique (vals : List Cell) : ℕ :=
  ((vals.filter (fun x => decide (x ≠ Cell.na))).dedup).length

/-- `DataTransformation._is_binary_or_numeric_target` (lines 35–39). -/
def isBinaryOrNumericTarget (d : Dtype) (vals : List Cell) : Bool :=
  if isNumericDtype d then true else decide (seriesNunique vals ≤ 2)

/-- `LabelEncoder().fit` on the training labels: the classes are the distinct
string labels in ascending lexicographic order (so the assigned integer codes
are lexicographic ranks). -/
def leFit (vals : List Cell) : List String := sortedUnique (strVals vals)

/-- Index of a string in the fitted class list (`np.searchsorted` position of
a seen label). -/
def idxOf? (s : String) : List String → Option ℕ
  | [] => none
  | c :: cs => if c = s then some 0 else (idxOf? s cs).map (· + 1)

/-- `LabelEncoder.transform` on one cell: the integer code of a seen string
label; a string label outside the fitted classes is the reachable
unseen-label failure (the encoder has no unknown bucket); a missing or raw
numeric label makes the underlying `np.unique` comparison fail. -/
def leTransformCell (classes : List String) (x : Cell) : Except TError Cell :=
  match x with
  | .str s =>
    match idxOf? s classes with
    | some i => .ok (.num i)
    | none => .error .unseenLabel
  | _ => .error .labelTypeError

/-- All entries of a label column are string labels (no missing, no raw
numerics). -/
def allStr (vals : List Cell) : Bool :=
  vals.all (fun x => match x with | .str _ => true | _ => false)

/-- `LabelEncoder.transform` over a label column. -/
def leTransform (classes : List String) (vals : List Cell) : Except TError (List Cell) :=
  exceptMapM (leTransformCell classes) vals

/-- The duplicated encode-and-persist block of `run` (lines 112–115 and
119–122): fit the encoder on the training labels, transform train, transform
test with the same fitted encoder. -/
def encodeLabels (yTrain yTest : List Cell) :
    Except TError (Option (List String) × List Cell × List Cell) :=
  let classes := leFit yTrain
  match leTransform classes yTrain with
  | .error e => .error e
  | .ok tr =>
    match leTransform classes yTest with
    | .error e => .error e
    | .ok te => .ok (some classes, tr, te)

/-! ### The run orchestration (`DataTransformation.run`, lines 88–145) -/

/-- Everything `run` computes and persists: the fitted composite
transformation (saved to the artifact path and the well-known
`final_model` location), the optional fitted label-encoder classes, the
normalized/encoded label columns, and the transformed feature blocks for
train and test.  File writing itself is the out-of-scope persistence
adapter. -/
structure RunResult where
  preprocessor : FittedTransformer
  yEncoderClasses : Option (List String)
  yTrainOut : List Cell
  yTestOut : List Cell
  trainBlocks : List OutBlock
  testBlocks : List OutBlock
deriving DecidableEq, Inhabited

/-- `DataTransformation.run`, with the two input CSVs already read into
frames and the label column name (`TARGET_COLUMN`, a constant defined
outside src) passed explicitly. -/
def run (target : String) (trainDf testDf : Frame) : Except TError RunResult :=
  match trainDf.col? target, testDf.col? target with
  | some yTr, some yTe =>
    let yTrain1 := if isNumericDtype yTr.dtype then yTr.values.map replaceNeg1 else yTr.values
    let yTest1 := if isNumericDtype yTr.dtype then yTe.values.map replaceNeg1 else yTe.values
    let XTrain := trainDf.dropCol target
    let XTest := testDf.dropCol target
    match buildTransformer XTrain with
    | .error e => .error e
    | .ok spec =>
      match
        (if !isBinaryOrNumericTarget yTr.dtype yTrain1 then
          encodeLabels yTrain1 yTest1
        else if !isNumericDtype yTr.dtype then
          encodeLabels yTrain1 yTest1
        else
          .ok (none, yTrain1, yTest1)) with
      | .error e => .error e
      | .ok (enc, yTr2, yTe2) =>
        match FittedTransformer.fit spec XTrain with
        | .error e => .error e
        | .ok fitted =>
          match fitted.transform XTrain with
          | .error e => .error e
          | .ok trB =>
            match fitted.transform XTest with
            | .error e => .error e
            | .ok teB => .ok ⟨fitted, enc, yTr2, yTe2, trB, teB⟩
  | _, _ => .error .missingTargetColumn

/-! ### Concrete frames used to witness the theorems on sample inputs -/

/-- A frame with one regular-numeric column and one categorical column
(the two non-missing samples are too few for a defined skewness, so the
numeric column lands in the regular group). -/
def c1Frame : Frame :=
  [⟨"r", .numeric, [.num 1, .num 2]⟩,
   ⟨"c", .object, [.str "x", .str "y", .str "x"]⟩]

/-- The `ColumnTransformer` spec built from `c1Frame`. -/
def c1Spec : ColumnTransformerSpec :=
  ⟨[(GroupTag.numRegular, ["r"]), (GroupTag.cat, ["c"])]⟩

/-- A frame with one bool column and one categorical column. -/
def c10Frame : Frame :=
  [⟨"b", .bool, [.num 0, .num 1]⟩,
   ⟨"c", .object, [.str "x", .str "y"]⟩]

/-- Training frame for the leakage witness: numeric label and one numeric
feature column. -/
def c2Train : Frame :=
  [⟨"y", .numeric, [.num 0, .num 1]⟩, ⟨"f", .numeric, [.num 1, .num 2]⟩]

/-- One test frame for the leakage witness. -/
def c2TestA : Frame :=
  [⟨"y", .numeric, [.num 1, .num 0]⟩, ⟨"f", .numeric, [.num 3, .num 4]⟩]

/-- A different test frame (extra row removed, changed values) for the
leakage witness. -/
def c2TestB : Frame :=
  [⟨"y", .numeric, [.num 1]⟩, ⟨"f", .numeric, [.num 5]⟩]

/-- Training frame with a numeric label containing −1 sentinels. -/
def c4Train : Frame :=
  [⟨"y", .numeric, [.num (-1), .num 1, .num (-1), .num 1]⟩,
   ⟨"c", .object, [.str "a", .str "b", .str "a", .str "b"]⟩]

/-- Test frame with a numeric label containing a −1 sentinel. -/
def c4Test : Frame :=
  [⟨"y", .numeric, [.num (-1), .num 1]⟩, ⟨"c", .object, [.str "a", .str "b"]⟩]

/-- Training frame with a non-numeric label of three classes. -/
def c5Train : Frame :=
  [⟨"y", .object, [.str "u", .str "v", .str "w"]⟩,
   ⟨"c", .object, [.str "a", .str "b", .str "a"]⟩]

/-- Test frame whose labels were all seen in training. -/
def c5Test : Frame :=
  [⟨"y", .object, [.str "w", .str "u"]⟩, ⟨"c", .object, [.str "a", .str "b"]⟩]

/-- Test frame holding a label value never seen in training. -/
def c6TestBad : Frame :=
  [⟨"y", .object, [.str "z"]⟩, ⟨"c", .object, [.str "a"]⟩]

/-- Training feature frame with one categorical column of vocabulary x, y. -/
def c7Train : Frame := [⟨"c", .object, [.str "x", .str "y"]⟩]

/-- The spec built from `c7Train`. -/
def c7Spec : ColumnTransformerSpec := ⟨[(GroupTag.cat, ["c"])]⟩

/-- The transformer fitted from `c7Spec` on `c7Train`. -/
def c7Fitted : FittedTransformer := ⟨[(GroupTag.cat, [.catg "c" "x" ["x", "y"]])]⟩

/-- Test feature frame carrying the unseen category z. -/
def c7Test : Frame := [⟨"c", .object, [.str "z", .str "x"]⟩]

/-- Feature frame with one numeric and one categorical column, no missing
entries. -/
def c8Frame : Frame :=
  [⟨"n", .numeric, [.num 1, .num 2]⟩, ⟨"c", .object, [.str "x", .str "y"]⟩]

/-- Feature frame whose entirely-missing numeric column `a` shares the
regular-numeric sub-pipeline with the surviving column `f`: the imputer
silently drops `a`, the scaler fits on the one remaining feature, and the
transformed output ends up one column short of the count the claim
predicts. -/
def c8DropFrame : Frame :=
  [⟨"a", .numeric, [.na, .na]⟩,
   ⟨"f", .numeric, [.num 1, .num 2]⟩,
   ⟨"b", .object, [.str "x", .str "y"]⟩]

/-- The spec built from `c8DropFrame`. -/
def c8DropSpec : ColumnTransformerSpec :=
  ⟨[(GroupTag.numRegular, ["a", "f"]), (GroupTag.cat, ["b"])]⟩

/-- The transformer fitted on `c8DropFrame`: the all-missing column `a` was
discarded by the imputer, only `f` and `b` carry fitted state. -/
def c8DropFitted : FittedTransformer :=
  ⟨[(GroupTag.numRegular, [.num "f" [.num 1, .num 2]]),
    (GroupTag.cat, [.catg "b" "x" ["x", "y"]])]⟩

/-- The transformed output of `c8DropFrame`: one scaled column for `f` and
two one-hot columns for `b` — three columns, not the four the claim
predicts. -/
def c8DropBlocks : List OutBlock :=
  [⟨"f", GroupTag.numRegular, [],
    [[OutCell.real GroupTag.numRegular [.num 1, .num 2] 1,
      OutCell.real GroupTag.numRegular [.num 1, .num 2] 2]]⟩,
   ⟨"b", GroupTag.cat, ["x", "y"],
    [[OutCell.q 1, OutCell.q 0], [OutCell.q 0, OutCell.q 1]]⟩]

/-- Feature frame whose regular-numeric group holds a single, entirely
missing column: the imputer empties the sub-pipeline and fitting aborts
(the scaler rejects the 0-feature array). -/
def c8EmptyGroupFrame : Frame :=
  [⟨"a", .numeric, [.na, .na]⟩, ⟨"b", .object, [.str "x", .str "y"]⟩]

/-- The spec built from `c8EmptyGroupFrame`. -/
def c8EmptyGroupSpec : ColumnTransformerSpec :=
  ⟨[(GroupTag.numRegular, ["a"]), (GroupTag.cat, ["b"])]⟩

/-! ### Helper lemmas on profiling -/

theorem mem_selectNumCols {X : Frame} {n : String} :
    n ∈ selectNumCols X ↔ ∃ c, c ∈ X ∧ c.dtype.isNumLike = true ∧ c.name = n := by
  simp [selectNumCols, List.mem_map, List.mem_filter, and_assoc]

theorem mem_selectObjCols {X : Frame} {n : String} :
    n ∈ selectObjCols X ↔ ∃ c, c ∈ X ∧ c.dtype.isObjLike = true ∧ c.name = n := by
  simp [selectObjCols, List.mem_map, List.mem_filter, and_assoc]

theorem mem_skewedCols {X : Frame} {n : String} :
    n ∈ skewedCols X ↔ n ∈ selectNumCols X ∧ colIsSkewed X n = true := by
  simp [skewedCols, List.mem_filter]

theorem mem_regularCols {X : Frame} {n : String} :
    n ∈ regularCols X ↔ n ∈ selectNumCols X ∧ n ∉ skewedCols X := by
  simp [regularCols, List.mem_filter]

/-- With distinct column names, `X[c.name]` retrieves `c` itself. -/
theorem col?_eq_some_of_nodup {X : Frame} (hnd : (X.map Col.name).Nodup) {c : Col}
    (hc : c ∈ X) : Frame.col? X c.name = some c := by
  induction X with
  | nil => cases hc
  | cons d X ih =>
    have hnd' : ((X.map Col.name)).Nodup := (List.nodup_cons.mp hnd).2
    rcases List.mem_cons.mp hc with rfl | hmem
    · simp [Frame.col?]
    · have hne : ¬(d.name = c.name) := by
        intro h
        exact (List.nodup_cons.mp hnd).1 (h ▸ List.mem_map_of_mem Col.name hmem)
      have htail : Frame.col? X c.name = some c := ih hnd' hmem
      simp only [Frame.col?, List.find?] at htail ⊢
      simpa [hne] using htail

/-- With distinct column names, a name determines its column. -/
theorem col_eq_of_name_eq {X : Frame} (hnd : (X.map Col.name).Nodup) {c c' : Col}
    (hc : c ∈ X) (hc' : c' ∈ X) (h : c.name = c'.name) : c = c' := by
  have h1 := col?_eq_some_of_nodup hnd hc
  have h2 := col?_eq_some_of_nodup hnd hc'
  rw [h, h2] at h1
  exact (Option.some.inj h1).symm

/-- `absSkewGtOne` on the empty list is `False` (fewer than 3 samples). -/
theorem absSkewGtOne_nil : absSkewGtOne [] = false := rfl

/-- The redundant finiteness guard: on frames without infinities the skew
test reduces to the skewness comparison over the non-missing values. -/
theorem colIsSkewed_eq_absSkew {X : Frame} (hnd : (X.map Col.name).Nodup) {c : Col}
    (hc : c ∈ X) : colIsSkewed X c.name = absSkewGtOne (dropna c.values) := by
  rw [colIsSkewed, col?_eq_some_of_nodup hnd hc]
  by_cases h : dropna c.values = []
  · simp [colHasFinite, h, absSkewGtOne_nil]
  · simp [colHasFinite, h]

/-- Every dtype in the model is numeric-like or object-like (the frames the
component receives come from `pd.read_csv`, whose inferred dtypes are
int/float, bool, or object). -/
theorem isNumLike_or_isObjLike (d : Dtype) : d.isNumLike = true ∨ d.isObjLike = true := by
  cases d <;> simp [Dtype.isNumLike, Dtype.isObjLike]

theorem not_isNumLike_and_isObjLike (d : Dtype) :
    ¬(d.isNumLike = true ∧ d.isObjLike = true) := by
  cases d <;> simp [Dtype.isNumLike, Dtype.isObjLike]

/-- A list with a member is not empty. -/
theorem isEmpty_false_of_mem {α : Type} {l : List α} {a : α} (h : a ∈ l) :
    l.isEmpty = false := by
  cases l
  · cases h
  · rfl

/-- Characterization of the builder's success case. -/
theorem buildTransformer_ok {X : Frame} {spec : ColumnTransformerSpec}
    (h : buildTransformer X = .ok spec) :
    spec.transformers = builderGroups X := by
  rw [buildTransformer] at h
  split at h
  · cases h
  · cases h
    rfl

/-! ### C1 -/

/-- **C1.**  Column profiling is exhaustive and disjoint: on a training
feature frame (distinct column names) accepted by the builder, the
skewed-numeric, regular-numeric and categorical name lists are pairwise
disjoint, their union is exactly the frame's column set, and every column is
assigned to one of the `ColumnTransformer`'s groups — so the
`remainder="drop"` policy never removes a column. -/
theorem c1_profile_exhaustive_disjoint (X : Frame) (hnd : (X.map Col.name).Nodup)
    (spec : ColumnTransformerSpec) (hb : buildTransformer X = .ok spec) :
    ((skewedCols X).Disjoint (regularCols X) ∧
     (skewedCols X).Disjoint (selectObjCols X) ∧
     (regularCols X).Disjoint (selectObjCols X)) ∧
    (∀ n, (n ∈ skewedCols X ∨ n ∈ regularCols X ∨ n ∈ selectObjCols X) ↔
        n ∈ X.map Col.name) ∧
    (∀ c ∈ X, ∃ p ∈ spec.transformers, c.name ∈ p.2) := by
  have hnumobj : ∀ n, n ∈ selectNumCols X → n ∈ selectObjCols X → False := by
    intro n hn ho
    obtain ⟨c, hc, hcd, hcn⟩ := mem_selectNumCols.mp hn
    obtain ⟨c', hc', hcd', hcn'⟩ := mem_selectObjCols.mp ho
    have : c = c' := col_eq_of_name_eq hnd hc hc' (hcn.trans hcn'.symm)
    exact not_isNumLike_and_isObjLike c.dtype ⟨hcd, this ▸ hcd'⟩
  refine ⟨⟨?_, ?_, ?_⟩, ?_, ?_⟩
  · intro n hn hr
    exact (mem_regularCols.mp hr).2 hn
  · intro n hn ho
    exact hnumobj n (mem_skewedCols.mp hn).1 ho
  · intro n hn ho
    exact hnumobj n (mem_regularCols.mp hn).1 ho
  · intro n
    constructor
    · rintro (h | h | h)
      · obtain ⟨c, hc, _, hcn⟩ := mem_selectNumCols.mp (mem_skewedCols.mp h).1
        exact hcn ▸ List.mem_map_of_mem Col.name hc
      · obtain ⟨c, hc, _, hcn⟩ := mem_selectNumCols.mp (mem_regularCols.mp h).1
        exact hcn ▸ List.mem_map_of_mem Col.name hc
      · obtain ⟨c, hc, _, hcn⟩ := mem_selectObjCols.mp h
        exact hcn ▸ List.mem_map_of_mem Col.name hc
    · intro h
      obtain ⟨c, hc, rfl⟩ := List.mem_map.mp h
      rcases isNumLike_or_isObjLike c.dtype with hd | hd
      · have hn : c.name ∈ selectNumCols X := mem_selectNumCols.mpr ⟨c, hc, hd, rfl⟩
        by_cases hs : c.name ∈ skewedCols X
        · exact Or.inl hs
        · exact Or.inr (Or.inl (mem_regularCols.mpr ⟨hn, hs⟩))
      · exact Or.inr (Or.inr (mem_selectObjCols.mpr ⟨c, hc, hd, rfl⟩))
  · intro c hc
    have hcase : c.name ∈ skewedCols X ∨ c.name ∈ regularCols X ∨ c.name ∈ selectObjCols X := by
      rcases isNumLike_or_isObjLike c.dtype with hd | hd
      · have hn : c.name ∈ selectNumCols X := mem_selectNumCols.mpr ⟨c, hc, hd, rfl⟩
        by_cases hs : c.name ∈ skewedCols X
        · exact Or.inl hs
        · exact Or.inr (Or.inl (mem_regularCols.mpr ⟨hn, hs⟩))
      · exact Or.inr (Or.inr (mem_selectObjCols.mpr ⟨c, hc, hd, rfl⟩))
    rw [buildTransformer_ok hb]
    rcases hcase with h | h | h
    · refine ⟨(GroupTag.numSkewed, skewedCols X), ?_, h⟩
      simp [builderGroups, isEmpty_false_of_mem h]
    · refine ⟨(GroupTag.numRegular, regularCols X), ?_, h⟩
      simp [builderGroups, isEmpty_false_of_mem h]
    · refine ⟨(GroupTag.cat, selectObjCols X), ?_, h⟩
      simp [builderGroups, isEmpty_false_of_mem h]

/-- Witness for C1 at a concrete frame with one column of each group. -/
theorem c1_witness :
    ((skewedCols c1Frame).Disjoint (regularCols c1Frame) ∧
     (skewedCols c1Frame).Disjoint (selectObjCols c1Frame) ∧
     (regularCols c1Frame).Disjoint (selectObjCols c1Frame)) ∧
    (∀ n, (n ∈ skewedCols c1Frame ∨ n ∈ regularCols c1Frame ∨ n ∈ selectObjCols c1Frame) ↔
        n ∈ c1Frame.map Col.name) ∧
    (∀ c ∈ c1Frame, ∃ p ∈ c1Spec.transformers, c.name ∈ p.2) :=
  c1_profile_exhaustive_disjoint c1Frame (by decide) c1Spec (by decide)

/-! ### C3 -/

/-- **C3.**  Skewness classification rule: a numeric (incl. bool) feature
column of the training frame lands in the skewed group exactly when the
magnitude of the sample skewness of its non-missing values exceeds 1.0, and
in the regular group exactly otherwise — no other condition affects the
numeric split (the `np.isfinite(...).any()` guard is redundant: an
all-missing column has undefined skewness, which already fails the
threshold). -/
theorem c3_skewness_rule (X : Frame) (hnd : (X.map Col.name).Nodup)
    (c : Col) (hc : c ∈ X) (hnum : c.dtype.isNumLike = true) :
    (c.name ∈ skewedCols X ↔ absSkewGtOne (dropna c.values) = true) ∧
    (c.name ∈ regularCols X ↔ absSkewGtOne (dropna c.values) = false) := by
  have hsel : c.name ∈ selectNumCols X := mem_selectNumCols.mpr ⟨c, hc, hnum, rfl⟩
  have hskew := colIsSkewed_eq_absSkew hnd hc
  have hmem : c.name ∈ skewedCols X ↔ absSkewGtOne (dropna c.values) = true := by
    rw [mem_skewedCols, hskew]
    exact ⟨fun h => h.2, fun h => ⟨hsel, h⟩⟩
  refine ⟨hmem, ?_⟩
  rw [mem_regularCols]
  cases habs : absSkewGtOne (dropna c.values) with
  | false =>
    refine ⟨fun _ => rfl, fun _ => ⟨hsel, fun h => ?_⟩⟩
    have hcontra := hmem.mp h
    rw [habs] at hcontra
    cases hcontra
  | true =>
    constructor
    · rintro ⟨-, hns⟩
      exact absurd (hmem.mpr habs) hns
    · intro h
      cases h

/-- Witness for C3 at a concrete numeric column. -/
theorem c3_witness :
    (("r" : String) ∈ skewedCols c1Frame ↔
        absSkewGtOne (dropna [Cell.num 1, Cell.num 2]) = true) ∧
    (("r" : String) ∈ regularCols c1Frame ↔
        absSkewGtOne (dropna [Cell.num 1, Cell.num 2]) = false) :=
  c3_skewness_rule c1Frame (by decide) ⟨"r", .numeric, [.num 1, .num 2]⟩
    (by decide) (by decide)

/-! ### C9 -/

/-- `(if l.isEmpty then [] else [x]) = []` means `l = []`. -/
theorem ifEmpty_eq_nil {α β : Type} (l : List α) (x : β) :
    (if l.isEmpty then ([] : List β) else [x]) = [] ↔ l = [] := by
  cases l <;> simp

/-- The assembled group list is empty exactly when all three profile groups
are empty. -/
theorem builderGroups_eq_nil {X : Frame} :
    builderGroups X = [] ↔
      skewedCols X = [] ∧ regularCols X = [] ∧ selectObjCols X = [] := by
  rw [builderGroups]
  rw [List.append_eq_nil, List.append_eq_nil]
  rw [ifEmpty_eq_nil, ifEmpty_eq_nil, ifEmpty_eq_nil]
  tauto

/-- **C9.**  Zero usable feature columns is a hard error: building the
composite transformation fails with the no-feature-columns error exactly when
all three profile groups are empty, and that is the only error the builder
can raise. -/
theorem c9_no_feature_columns_error (X : Frame) :
    (buildTransformer X = .error .noFeatureColumns ↔
      (skewedCols X = [] ∧ regularCols X = [] ∧ selectObjCols X = [])) ∧
    (∀ e, buildTransformer X = .error e → e = .noFeatureColumns) := by
  rw [buildTransformer]
  by_cases hg : (builderGroups X).isEmpty
  · have hnil : builderGroups X = [] := by
      cases h : builderGroups X
      · rfl
      · rw [h] at hg; cases hg
    constructor
    · simp [hg, builderGroups_eq_nil.mp hnil]
    · intro e he
      simp only [hg, if_true] at he
      exact (Except.error.inj he).symm
  · have hnnil : ¬builderGroups X = [] := by
      intro h
      rw [h] at hg
      exact hg rfl
    constructor
    · simp only [hg, if_false]
      constructor
      · intro h; cases h
      · intro h
        exact absurd (builderGroups_eq_nil.mpr h) hnnil
    · intro e he
      simp only [hg, if_false] at he
      cases he

/-- Witness for C9: a frame holding only a label column yields an empty
feature frame after the label is dropped, and building fails. -/
theorem c9_witness :
    buildTransformer (Frame.dropCol [⟨"y", Dtype.numeric, [Cell.num 0]⟩] "y") =
      .error .noFeatureColumns :=
  (c9_no_feature_columns_error (Frame.dropCol [⟨"y", Dtype.numeric, [Cell.num 0]⟩] "y")).1.mpr
    (by decide)

/-! ### C10 -/

/-- Members of the assembled group list are among the three tagged profile
groups. -/
theorem mem_builderGroups {X : Frame} {p : GroupTag × List String}
    (h : p ∈ builderGroups X) :
    p = (GroupTag.numSkewed, skewedCols X) ∨ p = (GroupTag.numRegular, regularCols X) ∨
    p = (GroupTag.cat, selectObjCols X) := by
  rw [builderGroups] at h
  rcases List.mem_append.mp h with h' | h'
  · rcases List.mem_append.mp h' with h'' | h''
    · split at h'' <;> simp_all
    · split at h'' <;> simp_all
  · split at h' <;> simp_all

/-- **C10.**  Implicit dtype dispatch: a boolean-dtyped feature column is
selected by the numeric matcher and not by the categorical matcher, so it is
placed in a numeric group (skewed or regular) of the built transformer and
never in the one-hot/most-frequent categorical group, despite having at most
two values. -/
theorem c10_bool_treated_numeric (X : Frame) (hnd : (X.map Col.name).Nodup)
    (c : Col) (hc : c ∈ X) (hb : c.dtype = Dtype.bool) :
    c.name ∈ selectNumCols X ∧
    c.name ∉ selectObjCols X ∧
    (c.name ∈ skewedCols X ∨ c.name ∈ regularCols X) ∧
    (∀ spec, buildTransformer X = .ok spec →
      (∃ p ∈ spec.transformers,
          (p.1 = GroupTag.numSkewed ∨ p.1 = GroupTag.numRegular) ∧ c.name ∈ p.2) ∧
      (∀ p ∈ spec.transformers, p.1 = GroupTag.cat → c.name ∉ p.2)) := by
  have hnum : c.dtype.isNumLike = true := by rw [hb]; rfl
  have hsel : c.name ∈ selectNumCols X := mem_selectNumCols.mpr ⟨c, hc, hnum, rfl⟩
  have hnotobj : c.name ∉ selectObjCols X := by
    intro ho
    obtain ⟨c', hc', hcd', hcn'⟩ := mem_selectObjCols.mp ho
    have : c = c' := col_eq_of_name_eq hnd hc hc' hcn'.symm
    exact not_isNumLike_and_isObjLike c.dtype ⟨hnum, this ▸ hcd'⟩
  have hgrp : c.name ∈ skewedCols X ∨ c.name ∈ regularCols X := by
    by_cases hs : c.name ∈ skewedCols X
    · exact Or.inl hs
    · exact Or.inr (mem_regularCols.mpr ⟨hsel, hs⟩)
  refine ⟨hsel, hnotobj, hgrp, ?_⟩
  intro spec hspec
  rw [buildTransformer_ok hspec]
  constructor
  · rcases hgrp with h | h
    · refine ⟨(GroupTag.numSkewed, skewedCols X), ?_, Or.inl rfl, h⟩
      simp [builderGroups, isEmpty_false_of_mem h]
    · refine ⟨(GroupTag.numRegular, regularCols X), ?_, Or.inr rfl, h⟩
      simp [builderGroups, isEmpty_false_of_mem h]
  · intro p hp hcat
    rcases mem_builderGroups hp with rfl | rfl | rfl
    · cases hcat
    · cases hcat
    · exact hnotobj

/-- Witness for C10 at a concrete frame with a bool column. -/
theorem c10_witness :
    ("b" : String) ∈ selectNumCols c10Frame ∧
    ("b" : String) ∉ selectObjCols c10Frame ∧
    (("b" : String) ∈ skewedCols c10Frame ∨ ("b" : String) ∈ regularCols c10Frame) ∧
    (∀ spec, buildTransformer c10Frame = .ok spec →
      (∃ p ∈ spec.transformers,
          (p.1 = GroupTag.numSkewed ∨ p.1 = GroupTag.numRegular) ∧ ("b" : String) ∈ p.2) ∧
      (∀ p ∈ spec.transformers, p.1 = GroupTag.cat → ("b" : String) ∉ p.2)) :=
  c10_bool_treated_numeric c10Frame (by decide) ⟨"b", .bool, [.num 0, .num 1]⟩
    (by decide) (by decide)

/-! ### Infrastructure for fit/transform reasoning -/

theorem exceptMapM_ok_of_forall {α β : Type} {f : α → Except TError β} {l : List α}
    (h : ∀ x ∈ l, ∃ b, f x = .ok b) :
    ∃ bs, exceptMapM f l = .ok bs ∧ List.Forall₂ (fun a b => f a = .ok b) l bs := by
  induction l with
  | nil => exact ⟨[], rfl, List.Forall₂.nil⟩
  | cons a as ih =>
    obtain ⟨b, hb⟩ := h a (List.mem_cons_self a as)
    obtain ⟨bs, hbs, hall⟩ := ih (fun x hx => h x (List.mem_cons_of_mem a hx))
    refine ⟨b :: bs, ?_, List.Forall₂.cons hb hall⟩
    simp only [exceptMapM]
    rw [hb, hbs]

theorem exceptMapM_ok_forall₂ {α β : Type} {f : α → Except TError β} {l : List α}
    {bs : List β} (h : exceptMapM f l = .ok bs) :
    List.Forall₂ (fun a b => f a = .ok b) l bs := by
  induction l generalizing bs with
  | nil =>
    simp only [exceptMapM] at h
    cases h
    exact List.Forall₂.nil
  | cons a as ih =>
    simp only [exceptMapM] at h
    cases hfa : f a with
    | error e => rw [hfa] at h; cases h
    | ok b =>
      rw [hfa] at h
      cases hrest : exceptMapM f as with
      | error e => rw [hrest] at h; cases h
      | ok bs' =>
        rw [hrest] at h
        cases h
        exact List.Forall₂.cons hfa (ih hrest)

theorem forall₂_mem_right {α β : Type} {R : α → β → Prop} {l : List α} {bs : List β}
    (h : List.Forall₂ R l bs) {b : β} (hb : b ∈ bs) : ∃ a, a ∈ l ∧ R a b := by
  induction h with
  | nil => cases hb
  | @cons a b' as bs' hR hrest ih =>
    rcases List.mem_cons.mp hb with rfl | hb'
    · exact ⟨a, List.mem_cons_self a as, hR⟩
    · obtain ⟨a', ha', hr⟩ := ih hb'
      exact ⟨a', List.mem_cons_of_mem a ha', hr⟩

theorem sum_map_eq_of_forall₂ {α β : Type} {R : α → β → Prop} {l : List α} {bs : List β}
    (h : List.Forall₂ R l bs) (f : α → ℕ) (g : β → ℕ)
    (hfg : ∀ a b, R a b → f a = g b) :
    (bs.map g).sum = (l.map f).sum := by
  induction h with
  | nil => rfl
  | @cons a b as bs' hR hrest ih =>
    simp only [List.map_cons, List.sum_cons, ih, hfg a b hR]

/-- A fitted state transforms successfully on any frame holding its column. -/
theorem transformState_ok_of_some {Y : Frame} {p : GroupTag × FittedColState} {c : Col}
    (h : Frame.col? Y p.2.colName = some c) : ∃ b, transformState Y p = .ok b := by
  rcases p with ⟨tag, st⟩
  cases st with
  | num n tv =>
    refine ⟨⟨n, tag, [], [c.values.map (transformNumCell tag tv)]⟩, ?_⟩
    simp only [transformState]
    rw [show Frame.col? Y n = some c from h]
  | catg n m cats =>
    refine ⟨⟨n, tag, cats, cats.map (fun cv => c.values.map (oneHotCell m cv))⟩, ?_⟩
    simp only [transformState]
    rw [show Frame.col? Y n = some c from h]

/-- The column a fitted state names, found in a frame, really is a member of
the frame and carries that name. -/
theorem col?_some_mem {Y : Frame} {n : String} {c : Col} (h : Frame.col? Y n = some c) :
    c ∈ Y ∧ c.name = n := by
  rw [Frame.col?] at h
  refine ⟨List.mem_of_find?_eq_some h, ?_⟩
  have hp := List.find?_some h
  exact of_decide_eq_true hp

/-- A successful fit yields exactly the per-group fitted state lists. -/
theorem fit_ok_entries {spec : ColumnTransformerSpec} {X : Frame}
    {t : FittedTransformer} (h : FittedTransformer.fit spec X = .ok t) :
    t.entries = fitEntries spec X := by
  rw [FittedTransformer.fit] at h
  split at h
  · cases h
  · cases h
    rfl

/-- Structure of the states of a transformer successfully fitted from the
builder's output: each state consumes an existing column of the training
frame, and its kind matches the column's dtype group. -/
theorem fit_state_characterize {X : Frame} (hnd : (X.map Col.name).Nodup)
    {t : FittedTransformer}
    (ht : FittedTransformer.fit ⟨builderGroups X⟩ X = .ok t)
    {p : GroupTag × FittedColState}
    (hp : p ∈ t.states) :
    ∃ c, c ∈ X ∧ Frame.col? X p.2.colName = some c ∧
      ((p.2 = .num c.name c.values ∧ c.dtype.isNumLike = true ∧ p.1 ≠ GroupTag.cat) ∨
       (∃ m cats, p.2 = .catg c.name m cats ∧ c.dtype.isObjLike = true ∧
          p.1 = GroupTag.cat)) := by
  have he := fit_ok_entries ht
  rcases t with ⟨entries⟩
  simp only at he
  subst he
  simp only [fitEntries, FittedTransformer.states, List.mem_flatMap,
    List.mem_map] at hp
  obtain ⟨e, ⟨g, hg, rfl⟩, st, hst, rfl⟩ := hp
  rcases g with ⟨tag, names⟩
  simp only [fitGroup, List.mem_filterMap] at hst ⊢
  obtain ⟨n, hn, hbind⟩ := hst
  have hnames :
      (tag = GroupTag.numSkewed ∧ names = skewedCols X) ∨
      (tag = GroupTag.numRegular ∧ names = regularCols X) ∨
      (tag = GroupTag.cat ∧ names = selectObjCols X) := by
    rcases mem_builderGroups hg with h | h | h <;>
      [exact Or.inl ⟨congrArg Prod.fst h, congrArg Prod.snd h⟩;
       exact Or.inr (Or.inl ⟨congrArg Prod.fst h, congrArg Prod.snd h⟩);
       exact Or.inr (Or.inr ⟨congrArg Prod.fst h, congrArg Prod.snd h⟩)]
  rcases hnames with ⟨rfl, rfl⟩ | ⟨rfl, rfl⟩ | ⟨rfl, rfl⟩
  · cases hcol : Frame.col? X n with
    | none => rw [hcol] at hbind; cases hbind
    | some c =>
      rw [hcol] at hbind
      simp only [Option.some_bind, fitNumColState] at hbind
      obtain ⟨hcX, hcn⟩ := col?_some_mem hcol
      split at hbind
      · cases hbind
      · cases hbind
        refine ⟨c, hcX, ?_, Or.inl ⟨rfl, ?_, by intro h; cases h⟩⟩
        · simpa [FittedColState.colName, hcn] using hcol
        · obtain ⟨c', hc', hd', hn'⟩ := mem_selectNumCols.mp (mem_skewedCols.mp hn).1
          exact (col_eq_of_name_eq hnd hcX hc' (hcn.trans hn'.symm)) ▸ hd'
  · cases hcol : Frame.col? X n with
    | none => rw [hcol] at hbind; cases hbind
    | some c =>
      rw [hcol] at hbind
      simp only [Option.some_bind, fitNumColState] at hbind
      obtain ⟨hcX, hcn⟩ := col?_some_mem hcol
      split at hbind
      · cases hbind
      · cases hbind
        refine ⟨c, hcX, ?_, Or.inl ⟨rfl, ?_, by intro h; cases h⟩⟩
        · simpa [FittedColState.colName, hcn] using hcol
        · obtain ⟨c', hc', hd', hn'⟩ := mem_selectNumCols.mp (mem_regularCols.mp hn).1
          exact (col_eq_of_name_eq hnd hcX hc' (hcn.trans hn'.symm)) ▸ hd'
  · cases hcol : Frame.col? X n with
    | none => rw [hcol] at hbind; cases hbind
    | some c =>
      rw [hcol] at hbind
      simp only [Option.some_bind, fitCatColState] at hbind
      obtain ⟨hcX, hcn⟩ := col?_some_mem hcol
      cases hmode : modeOf (strVals c.values) with
      | none => rw [hmode] at hbind; cases hbind
      | some m =>
        rw [hmode] at hbind
        cases hbind
        refine ⟨c, hcX, ?_, Or.inr ⟨m, _, rfl, ?_, rfl⟩⟩
        · simpa [FittedColState.colName, hcn] using hcol
        · obtain ⟨c', hc', hd', hn'⟩ := mem_selectObjCols.mp hn
          exact (col_eq_of_name_eq hnd hcX hc' (hcn.trans hn'.symm)) ▸ hd'

/-- Inversion of a successful per-state transform. -/
theorem transformState_ok_inv {Y : Frame} {p : GroupTag × FittedColState} {b : OutBlock}
    (h : transformState Y p = .ok b) :
    b.tag = p.1 ∧ b.source = p.2.colName ∧
    ∃ c, Frame.col? Y p.2.colName = some c ∧
      ((∃ n tv, p.2 = .num n tv ∧ b.categories = [] ∧
          b.cols = [c.values.map (transformNumCell p.1 tv)]) ∨
       (∃ n m cats, p.2 = .catg n m cats ∧ b.categories = cats ∧
          b.cols = cats.map (fun cv => c.values.map (oneHotCell m cv)))) := by
  rcases p with ⟨tag, st⟩
  cases st with
  | num n tv =>
    simp only [transformState] at h
    cases hcol : Frame.col? Y n with
    | none => rw [hcol] at h; cases h
    | some c =>
      rw [hcol] at h
      cases h
      exact ⟨rfl, rfl, c, hcol, Or.inl ⟨n, tv, rfl, rfl, rfl⟩⟩
  | catg n m cats =>
    simp only [transformState] at h
    cases hcol : Frame.col? Y n with
    | none => rw [hcol] at h; cases h
    | some c =>
      rw [hcol] at h
      cases h
      exact ⟨rfl, rfl, c, hcol, Or.inr ⟨n, m, cats, rfl, rfl, rfl⟩⟩

/-! ### C7 -/

/-- **C7.**  Unseen test category never fails: applying the fitted composite
transformation to any frame that holds the fitted columns succeeds, and in
every categorical output block, a row whose input value is a category absent
from the fitted vocabulary gets an all-zero one-hot indicator block
(`handle_unknown="ignore"`). -/
theorem c7_unseen_category_all_zeros (X : Frame) (hnd : (X.map Col.name).Nodup)
    (spec : ColumnTransformerSpec) (hspec : buildTransformer X = .ok spec)
    (t : FittedTransformer) (ht : FittedTransformer.fit spec X = .ok t)
    (Y : Frame)
    (hcov : ∀ p ∈ t.states, (Frame.col? Y p.2.colName).isSome = true) :
    ∃ blocks, t.transform Y = .ok blocks ∧
      ∀ b ∈ blocks, b.tag = GroupTag.cat →
        ∀ c, Frame.col? Y b.source = some c →
          ∀ (i : ℕ) (s : String), c.values[i]? = some (Cell.str s) → s ∉ b.categories →
            ∀ col ∈ b.cols, col[i]? = some (OutCell.q 0) := by
  have hsp : spec = ⟨builderGroups X⟩ :=
    congrArg ColumnTransformerSpec.mk (buildTransformer_ok hspec)
  subst hsp
  obtain ⟨blocks, htrans, hall⟩ :=
    exceptMapM_ok_of_forall (f := transformState Y) (l := t.states)
      (fun p hp => by
        obtain ⟨c, hc⟩ := Option.isSome_iff_exists.mp (hcov p hp)
        exact transformState_ok_of_some hc)
  refine ⟨blocks, htrans, ?_⟩
  intro b hb htag c hcY i s hcell hunseen col hcol
  obtain ⟨p, hpmem, hpb⟩ := forall₂_mem_right hall hb
  obtain ⟨hbtag, hbsrc, cY, hcYlookup, hshape⟩ := transformState_ok_inv hpb
  rcases hshape with ⟨n, tv, hst, _, _⟩ | ⟨n, m, cats, hst, hbcats, hbcols⟩
  · obtain ⟨c₀, _, _, hkind⟩ := fit_state_characterize hnd ht hpmem
    rcases hkind with ⟨_, _, hne⟩ | ⟨m', cats', hst', _, _⟩
    · exact absurd (hbtag.symm.trans htag) hne
    · rw [hst] at hst'; cases hst'
  · have hc_eq : c = cY := by
      rw [hbsrc] at hcY
      rw [hcY] at hcYlookup
      exact Option.some.inj hcYlookup
    subst hc_eq
    rw [hbcols] at hcol
    obtain ⟨cv, hcv, rfl⟩ := List.mem_map.mp hcol
    rw [List.getElem?_map, hcell]
    have hne : s ≠ cv := fun h => hunseen (hbcats ▸ (h ▸ hcv))
    simp [oneHotCell, imputeMostFrequent, hne]

/-- Witness for C7: transforming `c7Test` (unseen category z) with the
transformer fitted on `c7Train` succeeds and zeroes the indicator block. -/
theorem c7_witness :
    ∃ blocks, c7Fitted.transform c7Test = .ok blocks ∧
      ∀ b ∈ blocks, b.tag = GroupTag.cat →
        ∀ c, Frame.col? c7Test b.source = some c →
          ∀ (i : ℕ) (s : String), c.values[i]? = some (Cell.str s) → s ∉ b.categories →
            ∀ col ∈ b.cols, col[i]? = some (OutCell.q 0) :=
  c7_unseen_category_all_zeros c7Train (by decide) c7Spec (by decide) c7Fitted (by decide)
    c7Test (by decide)

/-! ### Counting lemmas for the transformed-output width -/

theorem eq_nil_of_isEmpty {α : Type} {l : List α} (h : l.isEmpty = true) : l = [] := by
  cases l
  · rfl
  · cases h

theorem isEmpty_false_of_ne_nil {α : Type} {l : List α} (h : l ≠ []) :
    l.isEmpty = false := by
  cases l
  · exact absurd rfl h
  · rfl

theorem length_filter_add_length_filter_not {α : Type} (l : List α) (p q : α → Bool)
    (h : ∀ a ∈ l, q a = !p a) :
    (l.filter p).length + (l.filter q).length = l.length := by
  induction l with
  | nil => rfl
  | cons a as ih =>
    have hq := h a (List.mem_cons_self a as)
    have ih' := ih (fun x hx => h x (List.mem_cons_of_mem a hx))
    cases hp : p a <;> simp [List.filter_cons, hp, hq, ih'] <;> omega

/-- The skewed and regular groups partition the numeric columns by count. -/
theorem skew_reg_partition_length (X : Frame) :
    (skewedCols X).length + (regularCols X).length = (selectNumCols X).length := by
  rw [skewedCols, regularCols]
  refine length_filter_add_length_filter_not (selectNumCols X) (colIsSkewed X) _ ?_
  intro a ha
  by_cases hm : a ∈ skewedCols X
  · have h1 : (skewedCols X).contains a = true := List.elem_iff.mpr hm
    have h2 : colIsSkewed X a = true := (mem_skewedCols.mp hm).2
    rw [h1, h2]
  · have h1 : (skewedCols X).contains a = false := by
      cases hcc : (skewedCols X).contains a
      · rfl
      · exact absurd (List.elem_iff.mp hcc) hm
    have h2 : colIsSkewed X a = false := by
      cases hcs : colIsSkewed X a
      · rfl
      · exact absurd (mem_skewedCols.mpr ⟨ha, hcs⟩) hm
    rw [h1, h2]

theorem filterMap_all_some_length {α β : Type} (f : α → Option β) (l : List α)
    (h : ∀ a ∈ l, (f a).isSome = true) : (l.filterMap f).length = l.length := by
  induction l with
  | nil => rfl
  | cons a as ih =>
    obtain ⟨b, hb⟩ := Option.isSome_iff_exists.mp (h a (List.mem_cons_self a as))
    rw [List.filterMap_cons, hb]
    simp only [List.length_cons]
    rw [ih (fun x hx => h x (List.mem_cons_of_mem a hx))]

/-- States fitted for a non-categorical group are numeric states. -/
theorem fitGroup_num_all {X : Frame} {names : List String} {tag : GroupTag}
    (htag : tag ≠ GroupTag.cat) :
    ∀ st ∈ (fitGroup X (tag, names)).2, st.isNum = true := by
  intro st hst
  simp only [fitGroup, List.mem_filterMap] at hst
  obtain ⟨n, hn, hbind⟩ := hst
  cases hc : Frame.col? X n with
  | none => rw [hc] at hbind; cases hbind
  | some c =>
    rw [hc, Option.some_bind] at hbind
    cases tag with
    | cat => exact absurd rfl htag
    | numSkewed =>
      simp only [fitNumColState] at hbind
      split at hbind
      · cases hbind
      · cases hbind; rfl
    | numRegular =>
      simp only [fitNumColState] at hbind
      split at hbind
      · cases hbind
      · cases hbind; rfl

/-- States fitted for the categorical group are categorical states. -/
theorem fitGroup_cat_all {X : Frame} {names : List String} :
    ∀ st ∈ (fitGroup X (GroupTag.cat, names)).2, st.isNum = false := by
  intro st hst
  simp only [fitGroup, List.mem_filterMap] at hst
  obtain ⟨n, hn, hbind⟩ := hst
  cases hc : Frame.col? X n with
  | none => rw [hc] at hbind; cases hbind
  | some c =>
    rw [hc, Option.some_bind] at hbind
    simp only [fitCatColState] at hbind
    cases hm : modeOf (strVals c.values) with
    | none => rw [hm] at hbind; cases hbind
    | some m => rw [hm] at hbind; cases hbind; rfl

/-- A numeric group with no all-missing column keeps every column. -/
theorem fitGroup_num_length {X : Frame} {names : List String} {tag : GroupTag}
    (htag : tag ≠ GroupTag.cat)
    (h : ∀ n ∈ names, ∃ c, Frame.col? X n = some c ∧ dropna c.values ≠ []) :
    (fitGroup X (tag, names)).2.length = names.length := by
  simp only [fitGroup]
  refine filterMap_all_some_length _ names ?_
  intro n hn
  obtain ⟨c, hc, hdrop⟩ := h n hn
  rw [hc, Option.some_bind]
  cases tag with
  | cat => exact absurd rfl htag
  | numSkewed => simp [fitNumColState, hdrop]
  | numRegular => simp [fitNumColState, hdrop]

theorem fitEntries_states (spec : ColumnTransformerSpec) (X : Frame) :
    (FittedTransformer.mk (fitEntries spec X)).states =
      spec.transformers.flatMap
        (fun g => (fitGroup X g).2.map (fun st => ((fitGroup X g).1, st))) := by
  simp [fitEntries, FittedTransformer.states, List.flatMap_map]

/-- Members of the assembled group list, remembering that a group is only
assembled when its column list is non-empty. -/
theorem mem_builderGroups' {X : Frame} {p : GroupTag × List String}
    (h : p ∈ builderGroups X) :
    (p = (GroupTag.numSkewed, skewedCols X) ∧ skewedCols X ≠ []) ∨
    (p = (GroupTag.numRegular, regularCols X) ∧ regularCols X ≠ []) ∨
    (p = (GroupTag.cat, selectObjCols X) ∧ selectObjCols X ≠ []) := by
  rw [builderGroups] at h
  rcases List.mem_append.mp h with h' | h'
  · rcases List.mem_append.mp h' with h'' | h''
    · split at h''
      · cases h''
      · refine Or.inl ⟨?_, ?_⟩
        · simpa using h''
        · next hne =>
          intro hnil
          exact hne (by rw [hnil]; rfl)
    · split at h''
      · cases h''
      · refine Or.inr (Or.inl ⟨?_, ?_⟩)
        · simpa using h''
        · next hne =>
          intro hnil
          exact hne (by rw [hnil]; rfl)
  · split at h'
    · cases h'
    · refine Or.inr (Or.inr ⟨?_, ?_⟩)
      · simpa using h'
      · next hne =>
        intro hnil
        exact hne (by rw [hnil]; rfl)

theorem mem_insertSorted {s a : String} {l : List String} :
    s ∈ insertSorted a l ↔ s = a ∨ s ∈ l := by
  induction l with
  | nil => simp [insertSorted]
  | cons t ts ih =>
    rw [insertSorted]
    split
    · simp [List.mem_cons]
    · rw [List.mem_cons, ih, List.mem_cons]
      tauto

theorem mem_sortStr {s : String} {l : List String} : s ∈ sortStr l ↔ s ∈ l := by
  induction l with
  | nil => exact Iff.rfl
  | cons t ts ih =>
    show s ∈ insertSorted t (sortStr ts) ↔ s ∈ t :: ts
    rw [mem_insertSorted, ih, List.mem_cons]

theorem mem_sortedUnique {s : String} {l : List String} :
    s ∈ sortedUnique l ↔ s ∈ l := by
  rw [sortedUnique, mem_sortStr, List.mem_dedup]

/-- The mode-selecting fold never forgets a candidate once it has one. -/
theorem foldl_mode_some (l : List String) :
    ∀ (xs : List String) (b : String),
      (xs.foldl (fun acc s =>
        match acc with
        | none => some s
        | some b' => if countOf l b' < countOf l s then some s else acc) (some b)).isSome
        = true := by
  intro xs
  induction xs with
  | nil =>
    intro b
    rfl
  | cons x xs ih =>
    intro b
    rw [List.foldl_cons]
    show (xs.foldl (fun acc s =>
      match acc with
      | none => some s
      | some b' => if countOf l b' < countOf l s then some s else acc)
      (if countOf l b < countOf l x then some x else some b)).isSome = true
    by_cases h : countOf l b < countOf l x
    · rw [if_pos h]
      exact ih x
    · rw [if_neg h]
      exact ih b

/-- A column with at least one observed string value has a most-frequent
imputation statistic. -/
theorem modeOf_isSome {l : List String} (h : l ≠ []) : (modeOf l).isSome = true := by
  rw [modeOf]
  cases hsu : sortedUnique l with
  | nil =>
    obtain ⟨s, hs⟩ := List.exists_mem_of_ne_nil l h
    have hmem : s ∈ sortedUnique l := mem_sortedUnique.mpr hs
    rw [hsu] at hmem
    cases hmem
  | cons a rest =>
    rw [List.foldl_cons]
    exact foldl_mode_some l rest a

/-- A categorical group with no all-missing column keeps every column. -/
theorem fitGroup_cat_length {X : Frame} {names : List String}
    (h : ∀ n ∈ names, ∃ c, Frame.col? X n = some c ∧ strVals c.values ≠ []) :
    (fitGroup X (GroupTag.cat, names)).2.length = names.length := by
  simp only [fitGroup]
  refine filterMap_all_some_length _ names ?_
  intro n hn
  obtain ⟨c, hc, hs⟩ := h n hn
  rw [hc, Option.some_bind]
  simp only [fitCatColState]
  obtain ⟨m, hm⟩ := Option.isSome_iff_exists.mp (modeOf_isSome hs)
  rw [hm]
  rfl

theorem sum_map_all_one {α : Type} (l : List α) (f : α → ℕ) (h : ∀ a ∈ l, f a = 1) :
    (l.map f).sum = l.length := by
  induction l with
  | nil => rfl
  | cons a as ih =>
    rw [List.map_cons, List.sum_cons, h a (List.mem_cons_self a as),
      ih (fun x hx => h x (List.mem_cons_of_mem a hx)), List.length_cons]
    omega

theorem sum_map_all_zero {α : Type} (l : List α) (f : α → ℕ) (h : ∀ a ∈ l, f a = 0) :
    (l.map f).sum = 0 := by
  induction l with
  | nil => rfl
  | cons a as ih =>
    rw [List.map_cons, List.sum_cons, h a (List.mem_cons_self a as),
      ih (fun x hx => h x (List.mem_cons_of_mem a hx))]

theorem group_num_count {X : Frame} {names : List String} {tag : GroupTag}
    (htag : tag ≠ GroupTag.cat)
    (h : ∀ n ∈ names, ∃ c, Frame.col? X n = some c ∧ dropna c.values ≠ []) :
    (((fitGroup X (tag, names)).2.map
        (fun st => ((fitGroup X (tag, names)).1, st))).map
      (fun p => if p.2.isNum then 1 else 0)).sum = names.length := by
  rw [List.map_map]
  rw [sum_map_all_one _ _ (fun st hst => by
    have := fitGroup_num_all htag st hst
    simp [Function.comp_apply, this])]
  exact fitGroup_num_length htag h

theorem group_cat_count {X : Frame} {names : List String} :
    (((fitGroup X (GroupTag.cat, names)).2.map
        (fun st => ((fitGroup X (GroupTag.cat, names)).1, st))).map
      (fun p => if p.2.isNum then 1 else 0)).sum = 0 := by
  rw [List.map_map]
  exact sum_map_all_zero _ _ (fun st hst => by
    have := fitGroup_cat_all st hst
    simp [Function.comp_apply, this])

/-- Splitting the total state width into one-hot width plus the numeric
state count. -/
theorem width_sum_split (l : List (GroupTag × FittedColState)) :
    (l.map (fun p => p.2.width)).sum =
      (l.map (fun p => p.2.catWidth)).sum +
      (l.map (fun p => if p.2.isNum then 1 else 0)).sum := by
  induction l with
  | nil => rfl
  | cons a as ih =>
    rcases a with ⟨tag, st⟩
    rw [List.map_cons, List.sum_cons, List.map_cons, List.sum_cons,
      List.map_cons, List.sum_cons, ih]
    cases st with
    | num n tv =>
      have h1 : (FittedColState.num n tv).width = 1 := rfl
      have h2 : (FittedColState.num n tv).catWidth = 0 := rfl
      have h3 : (if (FittedColState.num n tv).isNum then 1 else 0) = 1 := rfl
      simp only [h1, h2, h3]
      omega
    | catg n m cats =>
      have h1 : (FittedColState.catg n m cats).width = cats.length := rfl
      have h2 : (FittedColState.catg n m cats).catWidth = cats.length := rfl
      have h3 : (if (FittedColState.catg n m cats).isNum then 1 else 0) = 0 := rfl
      simp only [h1, h2, h3]
      omega

/-- A successful per-state transform produces as many output columns as the
state's width. -/
theorem transformState_width {Y : Frame} {p : GroupTag × FittedColState} {b : OutBlock}
    (h : transformState Y p = .ok b) : p.2.width = b.cols.length := by
  obtain ⟨-, -, c, -, hshape⟩ := transformState_ok_inv h
  rcases hshape with ⟨n, tv, hst, -, hcols⟩ | ⟨n, m, cats, hst, -, hcols⟩
  · rw [hst, hcols]; rfl
  · rw [hst, hcols, List.length_map]; rfl

theorem sum_map_flatMap {α β : Type} (l : List α) (g : α → List β) (f : β → ℕ) :
    ((l.flatMap g).map f).sum = (l.map (fun a => ((g a).map f).sum)).sum := by
  induction l with
  | nil => rfl
  | cons a as ih =>
    rw [List.flatMap_cons, List.map_append, List.sum_append, ih, List.map_cons,
      List.sum_cons]

/-! ### C8 -/

/-- **C8 (amended).**  Transformed-output shape and completeness, under the
additional proviso (forced by the counterexample below) that every feature
column has at least one non-missing training value: for a dtype-consistent
feature frame with distinct column names, at least one numeric and at least
one categorical column, the fit on the training frame succeeds, its
application to the same frame succeeds, the output column count equals the
sum of the fitted one-hot category counts plus the count of numeric columns,
and no output entry is missing. -/
theorem c8_output_width_and_complete (X : Frame) (hnd : (X.map Col.name).Nodup)
    (hwf : ∀ c ∈ X, c.consistent = true)
    (hfill : ∀ c ∈ X, ∃ x ∈ c.values, x ≠ Cell.na)
    (hnum : ∃ c ∈ X, c.dtype.isNumLike = true)
    (hobj : ∃ c ∈ X, c.dtype.isObjLike = true) :
    ∃ spec t blocks,
      buildTransformer X = .ok spec ∧
      FittedTransformer.fit spec X = .ok t ∧
      t.transform X = .ok blocks ∧
      outWidth blocks = oneHotWidth t + (selectNumCols X).length ∧
      (∀ b ∈ blocks, ∀ col ∈ b.cols, ∀ x ∈ col, x ≠ OutCell.na) := by
  obtain ⟨cn, hcn, hcnd⟩ := hnum
  have hnmem : cn.name ∈ selectNumCols X := mem_selectNumCols.mpr ⟨cn, hcn, hcnd, rfl⟩
  have hbne : builderGroups X ≠ [] := by
    intro h
    obtain ⟨hs, hr, -⟩ := builderGroups_eq_nil.mp h
    by_cases hm : cn.name ∈ skewedCols X
    · rw [hs] at hm; cases hm
    · have hm' : cn.name ∈ regularCols X := mem_regularCols.mpr ⟨hnmem, hm⟩
      rw [hr] at hm'; cases hm'
  have hbuild : buildTransformer X = .ok ⟨builderGroups X⟩ := by
    rw [buildTransformer, isEmpty_false_of_ne_nil hbne]
    rfl
  have hfill' : ∀ n ∈ selectNumCols X,
      ∃ c, Frame.col? X n = some c ∧ dropna c.values ≠ [] := by
    intro n hn
    obtain ⟨c, hc, hcd, rfl⟩ := mem_selectNumCols.mp hn
    refine ⟨c, col?_eq_some_of_nodup hnd hc, ?_⟩
    obtain ⟨x, hx, hxna⟩ := hfill c hc
    have hcons := hwf c hc
    rw [Col.consistent, if_pos hcd] at hcons
    cases x with
    | na => exact absurd rfl hxna
    | str s =>
      have := List.all_eq_true.mp hcons (Cell.str s) hx
      cases this
    | num q =>
      intro hdrop
      have hqmem : q ∈ dropna c.values :=
        List.mem_filterMap.mpr ⟨Cell.num q, hx, rfl⟩
      rw [hdrop] at hqmem
      cases hqmem
  have hcatfill : ∀ n ∈ selectObjCols X,
      ∃ c, Frame.col? X n = some c ∧ strVals c.values ≠ [] := by
    intro n hn
    obtain ⟨c, hc, hcd, rfl⟩ := mem_selectObjCols.mp hn
    refine ⟨c, col?_eq_some_of_nodup hnd hc, ?_⟩
    obtain ⟨x, hx, hxna⟩ := hfill c hc
    have hcons := hwf c hc
    have hnotnum : c.dtype.isNumLike = false := by
      cases hd : c.dtype
      · rw [hd] at hcd; cases hcd
      · rw [hd] at hcd; cases hcd
      · rfl
      · rfl
    rw [Col.consistent, hnotnum] at hcons
    simp only [Bool.false_eq_true, if_false] at hcons
    cases x with
    | na => exact absurd rfl hxna
    | num q =>
      have := List.all_eq_true.mp hcons (Cell.num q) hx
      cases this
    | str s =>
      intro hdrop
      have hsmem : s ∈ strVals c.values :=
        List.mem_filterMap.mpr ⟨Cell.str s, hx, rfl⟩
      rw [hdrop] at hsmem
      cases hsmem
  have hfull : ∀ e ∈ fitEntries ⟨builderGroups X⟩ X, e.2.isEmpty = false := by
    intro e he
    simp only [fitEntries, List.mem_map] at he
    obtain ⟨g, hg, rfl⟩ := he
    rcases mem_builderGroups' hg with ⟨rfl, hne⟩ | ⟨rfl, hne⟩ | ⟨rfl, hne⟩
    · refine isEmpty_false_of_ne_nil (fun hnil => hne ?_)
      have hlen := @fitGroup_num_length X (skewedCols X) GroupTag.numSkewed
        (by intro h; cases h) (fun n hn => hfill' n (mem_skewedCols.mp hn).1)
      rw [hnil, List.length_nil] at hlen
      exact List.length_eq_zero.mp hlen.symm
    · refine isEmpty_false_of_ne_nil (fun hnil => hne ?_)
      have hlen := @fitGroup_num_length X (regularCols X) GroupTag.numRegular
        (by intro h; cases h) (fun n hn => hfill' n (mem_regularCols.mp hn).1)
      rw [hnil, List.length_nil] at hlen
      exact List.length_eq_zero.mp hlen.symm
    · refine isEmpty_false_of_ne_nil (fun hnil => hne ?_)
      have hlen := @fitGroup_cat_length X (selectObjCols X) hcatfill
      rw [hnil, List.length_nil] at hlen
      exact List.length_eq_zero.mp hlen.symm
  have hany : (fitEntries ⟨builderGroups X⟩ X).any (fun e => e.2.isEmpty) = false := by
    cases hcase : (fitEntries ⟨builderGroups X⟩ X).any (fun e => e.2.isEmpty)
    · rfl
    · obtain ⟨e, he, hpe⟩ := List.any_eq_true.mp hcase
      rw [hfull e he] at hpe
      cases hpe
  have hfitok : FittedTransformer.fit ⟨builderGroups X⟩ X =
      .ok ⟨fitEntries ⟨builderGroups X⟩ X⟩ := by
    rw [FittedTransformer.fit, hany]
    rfl
  obtain ⟨blocks, htrans, hall⟩ :=
    exceptMapM_ok_of_forall (f := transformState X)
      (l := (FittedTransformer.mk (fitEntries ⟨builderGroups X⟩ X)).states)
      (fun p hp => by
        obtain ⟨c, -, hc, -⟩ := fit_state_characterize hnd hfitok hp
        exact transformState_ok_of_some hc)
  have hcount :
      ((FittedTransformer.mk (fitEntries ⟨builderGroups X⟩ X)).states.map
        (fun p => if p.2.isNum then 1 else 0)).sum = (selectNumCols X).length := by
    rw [fitEntries_states, builderGroups, sum_map_flatMap, List.map_append,
      List.map_append, List.sum_append, List.sum_append]
    have hpart1 :
        ((if (skewedCols X).isEmpty then []
            else [(GroupTag.numSkewed, skewedCols X)]).map
          (fun g => (((fitGroup X g).2.map (fun st => ((fitGroup X g).1, st))).map
            (fun p => if p.2.isNum then 1 else 0)).sum)).sum = (skewedCols X).length := by
      by_cases h1 : (skewedCols X).isEmpty
      · rw [if_pos h1, eq_nil_of_isEmpty h1]
        rfl
      · rw [if_neg h1, List.map_cons, List.map_nil, List.sum_cons, List.sum_nil]
        rw [group_num_count (by intro h; cases h)
          (fun n hn => hfill' n (mem_skewedCols.mp hn).1)]
        omega
    have hpart2 :
        ((if (regularCols X).isEmpty then []
            else [(GroupTag.numRegular, regularCols X)]).map
          (fun g => (((fitGroup X g).2.map (fun st => ((fitGroup X g).1, st))).map
            (fun p => if p.2.isNum then 1 else 0)).sum)).sum = (regularCols X).length := by
      by_cases h2 : (regularCols X).isEmpty
      · rw [if_pos h2, eq_nil_of_isEmpty h2]
        rfl
      · rw [if_neg h2, List.map_cons, List.map_nil, List.sum_cons, List.sum_nil]
        rw [group_num_count (by intro h; cases h)
          (fun n hn => hfill' n (mem_regularCols.mp hn).1)]
        omega
    have hpart3 :
        ((if (selectObjCols X).isEmpty then []
            else [(GroupTag.cat, selectObjCols X)]).map
          (fun g => (((fitGroup X g).2.map (fun st => ((fitGroup X g).1, st))).map
            (fun p => if p.2.isNum then 1 else 0)).sum)).sum = 0 := by
      by_cases h3 : (selectObjCols X).isEmpty
      · rw [if_pos h3]
        rfl
      · rw [if_neg h3, List.map_cons, List.map_nil, List.sum_cons, List.sum_nil]
        rw [group_cat_count]
        omega
    rw [hpart1, hpart2, hpart3, ← skew_reg_partition_length X]
    omega
  refine ⟨⟨builderGroups X⟩, ⟨fitEntries ⟨builderGroups X⟩ X⟩, blocks,
    hbuild, hfitok, htrans, ?_, ?_⟩
  · rw [outWidth]
    rw [sum_map_eq_of_forall₂ hall (fun p => p.2.width) (fun b => b.cols.length)
      (fun p b hpb => transformState_width hpb)]
    rw [width_sum_split, oneHotWidth, hcount]
  · intro b hb col hcol x hx
    obtain ⟨p, hpmem, hpb⟩ := forall₂_mem_right hall hb
    obtain ⟨c₀, hc₀X, hc₀, hkind⟩ := fit_state_characterize hnd hfitok hpmem
    obtain ⟨-, -, cY, hcY, hshape⟩ := transformState_ok_inv hpb
    have hceq : cY = c₀ := by
      rw [hc₀] at hcY
      exact (Option.some.inj hcY).symm
    subst hceq
    rcases hshape with ⟨n, tv, hst, -, hcols⟩ | ⟨n, m, cats, hst, -, hcols⟩
    · rcases hkind with ⟨hstc, hcd, -⟩ | ⟨m', cats', hstc, -, -⟩
      · rw [hcols] at hcol
        rcases List.mem_cons.mp hcol with rfl | hcol'
        · obtain ⟨v, hv, rfl⟩ := List.mem_map.mp hx
          have hcons := hwf cY hc₀X
          rw [Col.consistent, if_pos hcd] at hcons
          cases v with
          | na => intro h; cases h
          | num q => intro h; cases h
          | str s =>
            have := List.all_eq_true.mp hcons (Cell.str s) hv
            cases this
        · cases hcol'
      · rw [hst] at hstc
        cases hstc
    · rcases hkind with ⟨hstc, -, -⟩ | ⟨m', cats', hstc, hcd, -⟩
      · rw [hst] at hstc
        cases hstc
      · rw [hcols] at hcol
        obtain ⟨cv, -, rfl⟩ := List.mem_map.mp hcol
        obtain ⟨v, hv, rfl⟩ := List.mem_map.mp hx
        have hcons := hwf cY hc₀X
        have hnotnum : cY.dtype.isNumLike = false := by
          cases hd : cY.dtype
          · rw [hd] at hcd; cases hcd
          · rw [hd] at hcd; cases hcd
          · rfl
          · rfl
        rw [Col.consistent, hnotnum] at hcons
        simp only [Bool.false_eq_true, if_false] at hcons
        cases v with
        | na => intro h; cases h
        | str s => intro h; cases h
        | num q =>
          have := List.all_eq_true.mp hcons (Cell.num q) hv
          cases this

/-- Witness for the amended C8 at a concrete frame. -/
theorem c8_witness :
    ∃ spec t blocks,
      buildTransformer c8Frame = .ok spec ∧
      FittedTransformer.fit spec c8Frame = .ok t ∧
      t.transform c8Frame = .ok blocks ∧
      outWidth blocks = oneHotWidth t + (selectNumCols c8Frame).length ∧
      (∀ b ∈ blocks, ∀ col ∈ b.cols, ∀ x ∈ col, x ≠ OutCell.na) :=
  c8_output_width_and_complete c8Frame (by decide) (by decide) (by decide)
    (by decide) (by decide)

/-- The fit-time error path that bounds the counterexample: when the
regular-numeric group's only column is entirely missing, the imputer empties
the sub-pipeline and fitting aborts instead of producing a narrower
transformer. -/
theorem fit_error_on_emptied_subpipeline :
    buildTransformer c8EmptyGroupFrame = .ok c8EmptyGroupSpec ∧
    FittedTransformer.fit c8EmptyGroupSpec c8EmptyGroupFrame =
      .error .transformFitError := by
  decide

/-- **C8 counterexample.**  On a frame whose regular-numeric group holds an
entirely-missing column `a` next to a surviving column `f`, plus a
categorical column `b`, fitting succeeds (the imputer silently discards `a`
and the scaler fits on the remaining feature) but the transformed output has
3 columns while the claim predicts one-hot categories (2) + numeric column
count (2) = 4. -/
theorem c8_counterexample :
    (∃ c ∈ c8DropFrame, c.dtype.isNumLike = true) ∧
    (∃ c ∈ c8DropFrame, c.dtype.isObjLike = true) ∧
    buildTransformer c8DropFrame = .ok c8DropSpec ∧
    FittedTransformer.fit c8DropSpec c8DropFrame = .ok c8DropFitted ∧
    c8DropFitted.transform c8DropFrame = .ok c8DropBlocks ∧
    outWidth c8DropBlocks = 3 ∧
    oneHotWidth c8DropFitted + (selectNumCols c8DropFrame).length = 4 := by
  decide

/-! ### Label-encoder lemmas -/

theorem mem_leFit {s : String} {vals : List Cell} :
    s ∈ leFit vals ↔ s ∈ strVals vals := by
  rw [leFit, mem_sortedUnique]

theorem idxOf?_isSome_of_mem {s : String} {l : List String} (h : s ∈ l) :
    ∃ i, idxOf? s l = some i := by
  induction l with
  | nil => cases h
  | cons c cs ih =>
    rw [idxOf?]
    by_cases hc : c = s
    · exact ⟨0, by rw [if_pos hc]⟩
    · rw [if_neg hc]
      rcases List.mem_cons.mp h with rfl | h'
      · exact absurd rfl hc
      · obtain ⟨i, hi⟩ := ih h'
        exact ⟨i + 1, by rw [hi]; rfl⟩

theorem idxOf?_eq_none_of_not_mem {s : String} {l : List String} (h : s ∉ l) :
    idxOf? s l = none := by
  induction l with
  | nil => rfl
  | cons c cs ih =>
    rw [idxOf?, if_neg (fun hc => h (List.mem_cons.mpr (Or.inl hc.symm))),
      ih (fun h' => h (List.mem_cons_of_mem c h'))]
    rfl

theorem allStr_forall {vals : List Cell} (h : allStr vals = true) :
    ∀ x ∈ vals, ∃ s, x = Cell.str s := by
  intro x hx
  have hcases := List.all_eq_true.mp h x hx
  cases x with
  | str s => exact ⟨s, rfl⟩
  | na => cases hcases
  | num q => cases hcases

theorem leTransform_ok_of_seen {classes : List String} {vals : List Cell}
    (h : ∀ x ∈ vals, ∃ s, x = Cell.str s ∧ s ∈ classes) :
    ∃ codes, leTransform classes vals = .ok codes := by
  have hmap := exceptMapM_ok_of_forall (f := leTransformCell classes) (l := vals) ?_
  · obtain ⟨codes, hc, -⟩ := hmap
    exact ⟨codes, hc⟩
  · intro x hx
    obtain ⟨s, rfl, hs⟩ := h x hx
    obtain ⟨i, hi⟩ := idxOf?_isSome_of_mem hs
    exact ⟨.num i, by simp only [leTransformCell, hi]⟩

theorem leTransform_error_unseen {classes : List String} :
    ∀ {vals : List Cell}, (∀ x ∈ vals, ∃ s, x = Cell.str s) →
      (∃ s, Cell.str s ∈ vals ∧ s ∉ classes) →
      leTransform classes vals = .error .unseenLabel := by
  intro vals
  induction vals with
  | nil =>
    intro _ hbad
    obtain ⟨s, hs, -⟩ := hbad
    cases hs
  | cons x xs ih =>
    intro hstr hbad
    obtain ⟨s₀, rfl⟩ := hstr x (List.mem_cons_self x xs)
    by_cases hs₀ : s₀ ∈ classes
    · obtain ⟨i, hi⟩ := idxOf?_isSome_of_mem hs₀
      obtain ⟨s, hsmem, hsnot⟩ := hbad
      have htail : Cell.str s ∈ xs := by
        rcases List.mem_cons.mp hsmem with heq | hmem
        · injection heq with hss
          subst hss
          exact absurd hs₀ hsnot
        · exact hmem
      have hxs := ih (fun z hz => hstr z (List.mem_cons_of_mem _ hz)) ⟨s, htail, hsnot⟩
      rw [leTransform] at hxs ⊢
      simp only [exceptMapM, leTransformCell, hi, hxs]
    · have hcell : leTransformCell classes (Cell.str s₀) = .error .unseenLabel := by
        simp only [leTransformCell, idxOf?_eq_none_of_not_mem hs₀]
      rw [leTransform]
      simp only [exceptMapM, hcell]

theorem encodeLabels_ok_inv {yTr yTe : List Cell} {enc : Option (List String)}
    {trOut teOut : List Cell}
    (h : encodeLabels yTr yTe = .ok (enc, trOut, teOut)) :
    enc = some (leFit yTr) ∧
    leTransform (leFit yTr) yTr = .ok trOut ∧
    leTransform (leFit yTr) yTe = .ok teOut := by
  simp only [encodeLabels] at h
  cases htr : leTransform (leFit yTr) yTr with
  | error e => rw [htr] at h; cases h
  | ok trv =>
    rw [htr] at h
    cases hte : leTransform (leFit yTr) yTe with
    | error e => rw [hte] at h; cases h
    | ok tev =>
      rw [hte] at h
      rw [Except.ok.injEq, Prod.mk.injEq, Prod.mk.injEq] at h
      obtain ⟨rfl, rfl, rfl⟩ := h
      exact ⟨rfl, rfl, rfl⟩

/-! ### Inversion of a successful run -/

theorem run_ok_inv {target : String} {tr te : Frame} {r : RunResult}
    (h : run target tr te = .ok r) :
    ∃ yTr yTe spec,
      Frame.col? tr target = some yTr ∧
      Frame.col? te target = some yTe ∧
      buildTransformer (Frame.dropCol tr target) = .ok spec ∧
      FittedTransformer.fit spec (Frame.dropCol tr target) = .ok r.preprocessor ∧
      (if !isBinaryOrNumericTarget yTr.dtype
            (if isNumericDtype yTr.dtype then yTr.values.map replaceNeg1
             else yTr.values) then
        encodeLabels
          (if isNumericDtype yTr.dtype then yTr.values.map replaceNeg1 else yTr.values)
          (if isNumericDtype yTr.dtype then yTe.values.map replaceNeg1 else yTe.values)
      else if !isNumericDtype yTr.dtype then
        encodeLabels
          (if isNumericDtype yTr.dtype then yTr.values.map replaceNeg1 else yTr.values)
          (if isNumericDtype yTr.dtype then yTe.values.map replaceNeg1 else yTe.values)
      else
        .ok (none,
          (if isNumericDtype yTr.dtype then yTr.values.map replaceNeg1 else yTr.values),
          (if isNumericDtype yTr.dtype then yTe.values.map replaceNeg1 else yTe.values)))
        = .ok (r.yEncoderClasses, r.yTrainOut, r.yTestOut) := by
  cases h1 : Frame.col? tr target with
  | none => simp [run, h1] at h
  | some yTr =>
    cases h2 : Frame.col? te target with
    | none => simp [run, h1, h2] at h
    | some yTe =>
      simp only [run, h1, h2] at h
      cases h3 : buildTransformer (Frame.dropCol tr target) with
      | error e => simp only [h3] at h; cases h
      | ok spec =>
        simp only [h3] at h
        split at h
        next e heq => cases h
        next enc yTr2 yTe2 heq =>
          cases h6 : FittedTransformer.fit spec (Frame.dropCol tr target) with
          | error e => simp only [h6] at h; cases h
          | ok fitted =>
            simp only [h6] at h
            cases h4 : fitted.transform (Frame.dropCol tr target) with
            | error e => simp only [h4] at h; cases h
            | ok trB =>
              simp only [h4] at h
              cases h5 : fitted.transform (Frame.dropCol te target) with
              | error e => simp only [h5] at h; cases h
              | ok teB =>
                simp only [h5] at h
                cases h
                exact ⟨yTr, yTe, spec, rfl, rfl, rfl, h6, heq⟩

/-! ### C2 -/

/-- **C2.**  No test-data leakage: for any two runs sharing the training
frame but with different test frames, the fitted composite transformation is
the same — it is the fit of the builder's spec on the training feature frame
alone, so the test frame never influences profiling or fitting. -/
theorem c2_no_test_leakage (target : String) (tr te1 te2 : Frame) (r1 r2 : RunResult)
    (h1 : run target tr te1 = .ok r1) (h2 : run target tr te2 = .ok r2) :
    (∃ spec fitted, buildTransformer (Frame.dropCol tr target) = .ok spec ∧
      FittedTransformer.fit spec (Frame.dropCol tr target) = .ok fitted ∧
      r1.preprocessor = fitted ∧ r2.preprocessor = fitted) ∧
    r1.preprocessor = r2.preprocessor := by
  obtain ⟨yTr, yTe, spec, hy, -, hb, hp, -⟩ := run_ok_inv h1
  obtain ⟨yTr', yTe', spec', hy', -, hb', hp', -⟩ := run_ok_inv h2
  have hspec : spec = spec' := by
    rw [hb] at hb'
    exact Except.ok.inj hb'
  subst hspec
  have heq : r1.preprocessor = r2.preprocessor := by
    rw [hp] at hp'
    exact Except.ok.inj hp'
  exact ⟨⟨spec, r1.preprocessor, hb, hp, rfl, heq.symm⟩, heq⟩

/-- Witness for C2: two runs on `c2Train` with different test frames yield
the same fitted transformation. -/
theorem c2_witness :
    (∃ spec fitted, buildTransformer (Frame.dropCol c2Train "y") = .ok spec ∧
      FittedTransformer.fit spec (Frame.dropCol c2Train "y") = .ok fitted ∧
      ((run "y" c2Train c2TestA).toOption.getD default).preprocessor = fitted ∧
      ((run "y" c2Train c2TestB).toOption.getD default).preprocessor = fitted) ∧
    ((run "y" c2Train c2TestA).toOption.getD default).preprocessor =
      ((run "y" c2Train c2TestB).toOption.getD default).preprocessor :=
  c2_no_test_leakage "y" c2Train c2TestA c2TestB _ _ (by decide) (by decide)

/-! ### C4 -/

/-- **C4.**  Label sentinel remap: when the training label dtype is numeric,
both label columns are normalized by replacing −1 with 0, independently and
identically, before anything else; no encoder is created, the feature frame
fed to the transformer is the unmodified frame minus the label column, and
the remap touches no value other than −1. -/
theorem c4_label_sentinel_remap (target : String) (tr te : Frame) (yTr yTe : Col)
    (r : RunResult)
    (hy : Frame.col? tr target = some yTr) (hy' : Frame.col? te target = some yTe)
    (hnumd : isNumericDtype yTr.dtype = true)
    (h : run target tr te = .ok r) :
    r.yTrainOut = yTr.values.map replaceNeg1 ∧
    r.yTestOut = yTe.values.map replaceNeg1 ∧
    r.yEncoderClasses = none ∧
    (∃ spec, buildTransformer (Frame.dropCol tr target) = .ok spec ∧
      FittedTransformer.fit spec (Frame.dropCol tr target) = .ok r.preprocessor) ∧
    replaceNeg1 (Cell.num (-1)) = Cell.num 0 ∧
    (∀ q : ℚ, q ≠ -1 → replaceNeg1 (Cell.num q) = Cell.num q) ∧
    replaceNeg1 Cell.na = Cell.na := by
  obtain ⟨yTr0, yTe0, spec, hy0, hy0', hb, hp, henc⟩ := run_ok_inv h
  rw [hy] at hy0
  injection hy0 with e1
  subst e1
  rw [hy'] at hy0'
  injection hy0' with e2
  subst e2
  have hbin : isBinaryOrNumericTarget yTr.dtype (yTr.values.map replaceNeg1) = true := by
    simp [isBinaryOrNumericTarget, hnumd]
  have henc' : Except.ok (ε := TError)
      ((none : Option (List String)), yTr.values.map replaceNeg1,
        yTe.values.map replaceNeg1) =
      Except.ok (r.yEncoderClasses, r.yTrainOut, r.yTestOut) := by
    rw [← henc]
    simp [hnumd, hbin]
  rw [Except.ok.injEq, Prod.mk.injEq, Prod.mk.injEq] at henc'
  obtain ⟨he, ht, hte⟩ := henc'
  refine ⟨ht.symm, hte.symm, he.symm, ⟨spec, hb, hp⟩, rfl, ?_, rfl⟩
  intro q hq
  simp [replaceNeg1, hq]

/-- Witness for C4: the train label column `[-1, 1, -1, 1]` normalizes to
`[0, 1, 0, 1]` (and the test labels independently). -/
theorem c4_witness :
    ((run "y" c4Train c4Test).toOption.getD default).yTrainOut =
      [Cell.num (-1), Cell.num 1, Cell.num (-1), Cell.num 1].map replaceNeg1 ∧
    ((run "y" c4Train c4Test).toOption.getD default).yTestOut =
      [Cell.num (-1), Cell.num 1].map replaceNeg1 ∧
    ((run "y" c4Train c4Test).toOption.getD default).yEncoderClasses = none ∧
    (∃ spec, buildTransformer (Frame.dropCol c4Train "y") = .ok spec ∧
      FittedTransformer.fit spec (Frame.dropCol c4Train "y") =
        .ok ((run "y" c4Train c4Test).toOption.getD default).preprocessor) ∧
    replaceNeg1 (Cell.num (-1)) = Cell.num 0 ∧
    (∀ q : ℚ, q ≠ -1 → replaceNeg1 (Cell.num q) = Cell.num q) ∧
    replaceNeg1 Cell.na = Cell.na :=
  c4_label_sentinel_remap "y" c4Train c4Test
    ⟨"y", .numeric, [.num (-1), .num 1, .num (-1), .num 1]⟩
    ⟨"y", .numeric, [.num (-1), .num 1]⟩ _
    (by decide) (by decide) (by decide) (by decide)

/-! ### C5 -/

/-- **C5.**  Label encoding happens exactly when the training label dtype is
non-numeric (regardless of how many distinct values the column has): a run
creates an encoder iff the dtype is non-numeric, in which case the fitted
classes are the lexicographically sorted distinct training labels and the
test labels are transformed with that same fitted encoder. -/
theorem c5_encoder_iff_nonnumeric (target : String) (tr te : Frame) (yTr yTe : Col)
    (r : RunResult)
    (hy : Frame.col? tr target = some yTr) (hy' : Frame.col? te target = some yTe)
    (h : run target tr te = .ok r) :
    (r.yEncoderClasses.isSome = true ↔ isNumericDtype yTr.dtype = false) ∧
    (isNumericDtype yTr.dtype = false →
      r.yEncoderClasses = some (leFit yTr.values) ∧
      leTransform (leFit yTr.values) yTr.values = .ok r.yTrainOut ∧
      leTransform (leFit yTr.values) yTe.values = .ok r.yTestOut) := by
  obtain ⟨yTr0, yTe0, spec, hy0, hy0', hb, hp, henc⟩ := run_ok_inv h
  rw [hy] at hy0
  injection hy0 with e1
  subst e1
  rw [hy'] at hy0'
  injection hy0' with e2
  subst e2
  cases hnum : isNumericDtype yTr.dtype with
  | true =>
    have hbin : isBinaryOrNumericTarget yTr.dtype (yTr.values.map replaceNeg1) = true := by
      simp [isBinaryOrNumericTarget, hnum]
    have henc' : Except.ok (ε := TError)
        ((none : Option (List String)), yTr.values.map replaceNeg1,
          yTe.values.map replaceNeg1) =
        Except.ok (r.yEncoderClasses, r.yTrainOut, r.yTestOut) := by
      rw [← henc]
      simp [hnum, hbin]
    rw [Except.ok.injEq, Prod.mk.injEq, Prod.mk.injEq] at henc'
    obtain ⟨he, -, -⟩ := henc'
    constructor
    · rw [← he]
      constructor
      · intro hcontra; cases hcontra
      · intro hcontra; cases hcontra
    · intro hcontra
      cases hcontra
  | false =>
    have henc' : encodeLabels yTr.values yTe.values =
        .ok (r.yEncoderClasses, r.yTrainOut, r.yTestOut) := by
      rw [← henc]
      by_cases hbin : isBinaryOrNumericTarget yTr.dtype yTr.values = true
      · simp [hnum, hbin]
      · simp [hnum, Bool.eq_false_iff.mpr hbin]
    obtain ⟨he, htr, hte⟩ := encodeLabels_ok_inv henc'
    refine ⟨?_, fun _ => ⟨he, htr, hte⟩⟩
    rw [he]
    constructor
    · intro _; rfl
    · intro _; rfl

/-- Witness for C5: a three-class string label column is encoded (classes
sorted lexicographically) and the test labels reuse the fitted classes. -/
theorem c5_witness :
    (((run "y" c5Train c5Test).toOption.getD default).yEncoderClasses.isSome = true ↔
      isNumericDtype Dtype.object = false) ∧
    (isNumericDtype Dtype.object = false →
      ((run "y" c5Train c5Test).toOption.getD default).yEncoderClasses =
        some (leFit [Cell.str "u", Cell.str "v", Cell.str "w"]) ∧
      leTransform (leFit [Cell.str "u", Cell.str "v", Cell.str "w"])
        [Cell.str "u", Cell.str "v", Cell.str "w"] =
        .ok ((run "y" c5Train c5Test).toOption.getD default).yTrainOut ∧
      leTransform (leFit [Cell.str "u", Cell.str "v", Cell.str "w"])
        [Cell.str "w", Cell.str "u"] =
        .ok ((run "y" c5Train c5Test).toOption.getD default).yTestOut) :=
  c5_encoder_iff_nonnumeric "y" c5Train c5Test
    ⟨"y", .object, [.str "u", .str "v", .str "w"]⟩
    ⟨"y", .object, [.str "w", .str "u"]⟩ _
    (by decide) (by decide) (by decide)

/-! ### C6 -/

/-- **C6.**  Unseen test label: on the label-encoding path (non-numeric
training label dtype, string labels), a test label value absent from the
training labels makes the run fail with the unseen-label error — the encoder
has no unknown bucket; conversely, when every test label value occurs in
training, encoding the test labels succeeds. -/
theorem c6_unseen_label (target : String) (tr te : Frame) (yTr yTe : Col)
    (hy : Frame.col? tr target = some yTr) (hy' : Frame.col? te target = some yTe)
    (hnn : isNumericDtype yTr.dtype = false)
    (htrstr : allStr yTr.values = true) (htestr : allStr yTe.values = true)
    (hbuild : (buildTransformer (Frame.dropCol tr target)).isOk = true) :
    ((∃ s, Cell.str s ∈ yTe.values ∧ s ∉ strVals yTr.values) →
        run target tr te = .error .unseenLabel) ∧
    ((∀ s ∈ strVals yTe.values, s ∈ strVals yTr.values) →
        ∃ codes, leTransform (leFit yTr.values) yTe.values = .ok codes) := by
  constructor
  · rintro ⟨s, hsmem, hsnot⟩
    cases hb : buildTransformer (Frame.dropCol tr target) with
    | error e =>
      rw [hb] at hbuild
      cases hbuild
    | ok spec =>
      obtain ⟨codes, hcodes⟩ := @leTransform_ok_of_seen (leFit yTr.values)
        yTr.values (fun x hx => by
          obtain ⟨s', rfl⟩ := allStr_forall htrstr x hx
          exact ⟨s', rfl, mem_leFit.mpr (List.mem_filterMap.mpr ⟨Cell.str s', hx, rfl⟩)⟩)
      have hterr : leTransform (leFit yTr.values) yTe.values = .error .unseenLabel :=
        leTransform_error_unseen (allStr_forall htestr)
          ⟨s, hsmem, fun hmem => hsnot (mem_leFit.mp hmem)⟩
      have hencerr : encodeLabels yTr.values yTe.values = .error .unseenLabel := by
        simp only [encodeLabels, hcodes, hterr]
      simp only [run, hy, hy', hb]
      by_cases hbin : isBinaryOrNumericTarget yTr.dtype yTr.values = true
      · simp only [hnn, Bool.false_eq_true, if_false, hbin, Bool.not_true,
          Bool.not_false, if_true, hencerr]
      · have hbin' : isBinaryOrNumericTarget yTr.dtype yTr.values = false :=
          Bool.eq_false_iff.mpr hbin
        simp only [hnn, Bool.false_eq_true, if_false, hbin', Bool.not_false,
          if_true, hencerr]
  · intro hseen
    refine leTransform_ok_of_seen (fun x hx => ?_)
    obtain ⟨s', rfl⟩ := allStr_forall htestr x hx
    exact ⟨s', rfl,
      mem_leFit.mpr (hseen s' (List.mem_filterMap.mpr ⟨Cell.str s', hx, rfl⟩))⟩

/-- Witness for C6: test label z was never seen in training u, v, w, so the
run fails with the unseen-label error. -/
theorem c6_witness : run "y" c5Train c6TestBad = .error .unseenLabel :=
  (c6_unseen_label "y" c5Train c6TestBad
    ⟨"y", .object, [.str "u", .str "v", .str "w"]⟩ ⟨"y", .object, [.str "z"]⟩
    (by decide) (by decide) (by decide) (by decide) (by decide) (by decide)).1
    ⟨"z", by decide, by decide⟩

end ETL

